import Mathlib

/-!
Shallow embedding of the reporting and reconciliation engine of
`backend.py` (bookkeeping backend): per-party ledgers, per-payment-mode
account reports, the daily cash reconciliation walk, the short/excess
projection, the report cache and the write endpoints that invalidate it.

Modelling conventions:
* SQL tables are Lean lists of rows, in insertion order (`txn_id` /
  `party_id` are `IDENTITY` columns, so insertion order is id order).
* Dates (`DATE` columns, compared with `<`, `<=`, `BETWEEN` and rendered
  as ISO strings whose lexicographic order is chronological) are `Nat`.
* Monetary amounts are `Rat` (the code stores `DECIMAL(18,2)` and sums
  with `SUM(...)`, i.e. exact decimal arithmetic).
* A SQL `ORDER BY txn_date` with no secondary key determines the result
  only up to the relative order of rows sharing a date; queries ending
  in such a clause are therefore embedded as a *relation* between the
  filtered rows and the emitted ordering (any date-sorted permutation),
  not as a function.
-/

namespace Backend

/-- A row of the `transactions` table
(`txn_id IDENTITY, txn_date, bill_no, party_id, txn_type, payment_mode, amount`). -/
structure Txn where
  txnId : Nat
  txnDate : Nat
  billNo : String
  partyId : Nat
  txnType : String
  paymentMode : String
  amount : Rat
deriving DecidableEq, Repr

/-- A row of the `parties` table
(`party_id IDENTITY, name, normalized_name UNIQUE, type, credit_allowed`). -/
structure Party where
  partyId : Nat
  name : String
  normalizedName : String
  ptype : String
  creditAllowed : Bool
deriving DecidableEq, Repr

/-- A row of the `daily_cash` table (`cash_date PRIMARY KEY, cash_in_hand`).
Every write path stores a concrete number, so `cash_in_hand` is non-null. -/
structure DailyCashRow where
  cashDate : Nat
  cashInHand : Rat
deriving DecidableEq, Repr

/-- A row of the `audit_logs` table (`username, action, details, company`). -/
structure AuditRow where
  username : String
  action : String
  details : String
  company : String
deriving DecidableEq, Repr

/-- A row of the `users` table (`username PRIMARY KEY, password_hash, role`). -/
structure UserRow where
  username : String
  passwordHash : String
  role : String
deriving DecidableEq, Repr

/-- The database state of one company: the tables the reporting engine
reads and the write endpoints mutate.  `openingCashSeed` is the
`app_settings` entry `opening_cash_seed` (read through `get_setting`
with default `0.0`, so it always denotes a number).  `nextTxnId` is the
`IDENTITY` counter of `transactions`. -/
structure DB where
  users : List UserRow
  auditLogs : List AuditRow
  parties : List Party
  transactions : List Txn
  dailyCash : List DailyCashRow
  openingCashSeed : Rat
  nextTxnId : Nat
deriving DecidableEq, Repr

/-- ASCII lower-casing of one character (the payment modes and party
names the engine compares are ASCII). -/
def lowerChar (c : Char) : Char :=
  if c.isUpper then Char.ofNat (c.toNat + 32) else c

/-- Python `str.lower()` on the ASCII strings the engine handles. -/
def strToLower (s : String) : String := ⟨s.data.map lowerChar⟩

/-- `name.lower().replace(" ", "_")` — normalization applied to party
names before lookup and storage (the replaced pattern is a single
character, so the replacement is character-wise). -/
def normalizeName (s : String) : String :=
  ⟨(strToLower s).data.map (fun c => if c = ' ' then '_' else c)⟩

/-- `SELECT party_id FROM parties WHERE normalized_name=?` + `fetchone()`.
`normalized_name` is `UNIQUE`, so the first match is the match. -/
def partyIdByName (db : DB) (normalized : String) : Option Nat :=
  (db.parties.find? (fun p => p.normalizedName = normalized)).map (·.partyId)

/-! ### Ledger (`get_ledger`, backend.py 424–489) -/

/-- An emitted ledger row: `{id, date, bill_no, type, mode, amount, balance}`. -/
structure LedgerRow where
  id : Nat
  date : Nat
  billNo : String
  ttype : String
  mode : String
  amount : Rat
  balance : Rat
deriving DecidableEq, Repr

/-- The `WHERE` clause of the ledger query: `party_id=?`, plus
`txn_date >= start` / `txn_date <= end` when those arguments are given.
The rows are kept in stored (insertion) order; ordering is applied by
`sqlOrderedByDate` below. -/
def ledgerTxns (db : DB) (pid : Nat) (start? end? : Option Nat) : List Txn :=
  db.transactions.filter (fun t =>
    t.partyId = pid &&
    (match start? with | some s => decide (s ≤ t.txnDate) | none => true) &&
    (match end? with | some e => decide (t.txnDate ≤ e) | none => true))

/-- Non-strict date order on transactions, the comparison underlying
`ORDER BY txn_date`. -/
def dateLe (a b : Txn) : Prop := a.txnDate ≤ b.txnDate

instance : DecidableRel dateLe := fun a b => by
  unfold dateLe; infer_instance

/-- `ORDER BY txn_date` (no secondary key): the result is some
permutation of the filtered rows that is sorted by date; the relative
order of rows sharing a date is not determined by the query. -/
def sqlOrderedByDate (rows out : List Txn) : Prop :=
  rows.Perm out ∧ out.Sorted dateLe

/-- One step of the ledger running balance: `Sale` adds the amount,
`Receipt` and `"Sale Return"` subtract it, and every other type also
subtracts it (the explicit default branch of the code). -/
def ledgerStep (bal : Rat) (ttype : String) (amount : Rat) : Rat :=
  if ttype = "Sale" then bal + amount
  else if ttype = "Receipt" ∨ ttype = "Sale Return" then bal - amount
  else bal - amount

/-- The ledger accumulation loop: starting from `bal`, emit one row per
transaction carrying the running balance. -/
def ledgerRowsFrom (bal : Rat) : List Txn → List LedgerRow
  | [] => []
  | t :: rest =>
    let b := ledgerStep bal t.txnType t.amount
    ⟨t.txnId, t.txnDate, t.billNo, t.txnType, t.paymentMode, t.amount, b⟩
      :: ledgerRowsFrom b rest

/-- The ledger endpoint as a relation between the database and a
possible response.  A missing party yields `[]` (the code returns an
empty ledger instead of raising); otherwise the response is the balance
walk over some date-sorted ordering of the filtered transactions,
starting from balance `0`. -/
def getLedgerSpec (db : DB) (party : String) (start? end? : Option Nat)
    (out : List LedgerRow) : Prop :=
  match partyIdByName db party with
  | none => out = []
  | some pid =>
    ∃ sorted, sqlOrderedByDate (ledgerTxns db pid start? end?) sorted ∧
      out = ledgerRowsFrom 0 sorted

/-- The ledger endpoint paired with its effect on the store: it issues
only `SELECT`s, so the database component of the outcome is unchanged. -/
def getLedgerOp (db : DB) (party : String) (start? end? : Option Nat)
    (out : List LedgerRow) (db' : DB) : Prop :=
  getLedgerSpec db party start? end? out ∧ db' = db

/-! ### Payment-mode account report (`get_mode_report`, backend.py 680–728) -/

/-- The bank-class alias set of the `mode.lower() == "bank"` branch:
`payment_mode IN ('Bank','UPI','GPay','GPAY','Google Pay','GooglePay')`. -/
def bankClassModes : List String :=
  ["Bank", "UPI", "GPay", "GPAY", "Google Pay", "GooglePay"]

/-- `SELECT t.txn_date, t.bill_no, p.name, t.txn_type, t.amount FROM
transactions t JOIN parties p ON t.party_id = p.party_id WHERE …`:
the mode filter (bank-class set or exact mode) combined with the inner
join against `parties` (`party_id` is an `IDENTITY` key, so at most one
party matches and a transaction without a party is dropped).  Rows stay
in stored order; `ORDER BY t.txn_date` is applied relationally below. -/
def modeJoinedTxns (db : DB) (mode : String) : List (Txn × String) :=
  (db.transactions.filter (fun t =>
      if strToLower mode = "bank" then t.paymentMode ∈ bankClassModes
      else t.paymentMode = mode)).filterMap
    (fun t => (db.parties.find? (fun p => p.partyId = t.partyId)).map
      (fun p => (t, p.name)))

/-- An emitted account-report row:
`{date, bill_no, party, type, debit, credit, balance}`. -/
structure ModeRow where
  date : Nat
  billNo : String
  party : String
  ttype : String
  debit : Rat
  credit : Rat
  balance : Rat
deriving DecidableEq, Repr

/-- Whether a transaction type counts as money in for the account view:
`ttype in ["Sale", "Receipt"]`. -/
def isInflow (ttype : String) : Prop := ttype = "Sale" ∨ ttype = "Receipt"

instance : DecidablePred isInflow := fun t => by
  unfold isInflow; infer_instance

/-- The balance after classifying one transaction:
inflow adds the amount, everything else subtracts it. -/
def modeStep (bal : Rat) (t : Txn) : Rat :=
  if isInflow t.txnType then bal + t.amount else bal - t.amount

/-- One emitted account-report row: an inflow debits the account, any
other type credits it; the row carries the updated running balance. -/
def modeRow (bal : Rat) (t : Txn) (pname : String) : ModeRow :=
  if isInflow t.txnType then
    ⟨t.txnDate, t.billNo, pname, t.txnType, t.amount, 0, bal + t.amount⟩
  else
    ⟨t.txnDate, t.billNo, pname, t.txnType, 0, t.amount, bal - t.amount⟩

/-- The account-report accumulation loop: inflow rows debit the account
and add to the balance, every other row credits it and subtracts. -/
def modeRowsFrom (bal : Rat) : List (Txn × String) → List ModeRow
  | [] => []
  | (t, pname) :: rest => modeRow bal t pname :: modeRowsFrom (modeStep bal t) rest

/-- Date order on joined rows, for the `ORDER BY t.txn_date` clause. -/
def dateLeJ (a b : Txn × String) : Prop := a.1.txnDate ≤ b.1.txnDate

instance : DecidableRel dateLeJ := fun a b => by
  unfold dateLeJ; infer_instance

/-- The account-report endpoint as a relation: the response is the
debit/credit walk, from balance `0`, over some date-sorted permutation
of the filtered-and-joined transactions. -/
def getModeReportSpec (db : DB) (mode : String) (out : List ModeRow) : Prop :=
  ∃ sorted, (modeJoinedTxns db mode).Perm sorted ∧ sorted.Sorted dateLeJ ∧
    out = modeRowsFrom 0 sorted

/-! ### Daily cash reconciliation (`get_daily_summary_report`,
`get_opening_cash_before_date`, backend.py 1129–1273) -/

/-- Per-transaction cash-in contribution, the two `CASE` expressions of
the aggregation query: `payment_mode='Cash' AND txn_type IN
('Sale','Receipt')` plus `payment_mode='Credit' AND txn_type='Receipt'`. -/
def cashInAmt (t : Txn) : Rat :=
  (if t.paymentMode = "Cash" ∧ (t.txnType = "Sale" ∨ t.txnType = "Receipt")
    then t.amount else 0) +
  (if t.paymentMode = "Credit" ∧ t.txnType = "Receipt" then t.amount else 0)

/-- Per-transaction cash-out contribution:
`payment_mode='Cash' AND txn_type='Expense'`. -/
def cashExpenseAmt (t : Txn) : Rat :=
  if t.paymentMode = "Cash" ∧ t.txnType = "Expense" then t.amount else 0

/-- Per-transaction bank-class inflow contribution:
`payment_mode IN (bank-class) AND txn_type IN ('Sale','Receipt')`. -/
def bankInAmt (t : Txn) : Rat :=
  if t.paymentMode ∈ bankClassModes ∧ (t.txnType = "Sale" ∨ t.txnType = "Receipt")
    then t.amount else 0

/-- Per-transaction sales contribution: `txn_type='Sale'`. -/
def totalSalesAmt (t : Txn) : Rat :=
  if t.txnType = "Sale" then t.amount else 0

/-- `LEFT JOIN parties p ON t.party_id = p.party_id`, reading `p.type`
(`NULL`, hence no match, when the party is missing). -/
def partyTypeOf (db : DB) (pid : Nat) : Option String :=
  (db.parties.find? (fun p => p.partyId = pid)).map (·.ptype)

/-- Per-transaction credit-sales contribution: `txn_type='Sale' AND
(p.type='Credit Customer' OR payment_mode='Credit')`. -/
def creditSalesAmt (db : DB) (t : Txn) : Rat :=
  if t.txnType = "Sale" ∧
      (partyTypeOf db t.partyId = some "Credit Customer" ∨ t.paymentMode = "Credit")
    then t.amount else 0

/-- Per-transaction credit-receipts contribution:
`txn_type='Receipt' AND p.type='Credit Customer'`. -/
def creditReceiptsAmt (db : DB) (t : Txn) : Rat :=
  if t.txnType = "Receipt" ∧ partyTypeOf db t.partyId = some "Credit Customer"
    then t.amount else 0

/-- The day-`d` group of the aggregation query (`GROUP BY t.txn_date`
restricted to the range): all transactions dated `d`, summed through
`f`.  For `d` inside the queried range this coincides with the SQL
group; a date with no transactions yields the `agg_map.get(d, {})`
default of `0`. -/
def daySum (db : DB) (d : Nat) (f : Txn → Rat) : Rat :=
  ((db.transactions.filter (fun t => t.txnDate = d)).map f).sum

/-- All transactions dated strictly before `s`
(`WHERE txn_date < ?` of `get_opening_cash_before_date`). -/
def txnsBefore (db : DB) (s : Nat) : List Txn :=
  db.transactions.filter (fun t => t.txnDate < s)

/-- `SELECT TOP 1 cash_date, cash_in_hand FROM daily_cash WHERE
cash_date < ? ORDER BY cash_date DESC`: the stored count with the
greatest date strictly before `s` (`cash_date` is the primary key, so
the maximum is unique; on a hypothetical tie the earlier row wins, as
any fixed `TOP 1` choice would). -/
def recentCountBefore (db : DB) (s : Nat) : Option DailyCashRow :=
  (db.dailyCash.filter (fun r => r.cashDate < s)).foldl
    (fun best r =>
      match best with
      | none => some r
      | some b => if b.cashDate < r.cashDate then some r else some b)
    none

/-- `get_opening_cash_before_date`: the most recent count before `s`
verbatim when present, else the seed plus net cash movement before `s`
(the two `SUM(CASE …)` aggregates). -/
def openingCashBeforeDate (db : DB) (s : Nat) (openingSeed : Rat) : Rat :=
  match recentCountBefore db s with
  | some r => r.cashInHand
  | none =>
    openingSeed + ((txnsBefore db s).map cashInAmt).sum
      - ((txnsBefore db s).map cashExpenseAmt).sum

/-- `cash_map` of the report: the counts fetched with `cash_date
BETWEEN start AND end`, looked up by date (`cash_date` is unique). -/
def dcLookupRange (db : DB) (s e d : Nat) : Option Rat :=
  ((db.dailyCash.filter (fun r => s ≤ r.cashDate ∧ r.cashDate ≤ e)).find?
    (fun r => r.cashDate = d)).map (·.cashInHand)

/-- Unrestricted lookup of the recorded count for a date (the claims
speak of "a DailyCashCount recorded for that date"). -/
def dcLookup (db : DB) (d : Nat) : Option Rat :=
  (db.dailyCash.find? (fun r => r.cashDate = d)).map (·.cashInHand)

/-- Insert a date into an ascending list, keeping it ascending. -/
def insertDate (d : Nat) : List Nat → List Nat
  | [] => [d]
  | x :: xs => if d ≤ x then d :: x :: xs else x :: insertDate d xs

/-- Ascending insertion sort, the `sorted(...)` applied to the distinct
active dates. -/
def sortDates : List Nat → List Nat
  | [] => []
  | x :: xs => insertDate x (sortDates xs)

/-- The `SELECT DISTINCT d FROM (… UNION …)` date pool: transaction
dates and daily-cash dates within `[s, e]`, before deduplication. -/
def datePool (db : DB) (s e : Nat) : List Nat :=
  (db.transactions.map (·.txnDate)).filter (fun d => s ≤ d ∧ d ≤ e) ++
    (db.dailyCash.map (·.cashDate)).filter (fun d => s ≤ d ∧ d ≤ e)

/-- `dates = sorted([...])` over the distinct pool: the active date set
of the reconciliation walk, ascending. -/
def activeDates (db : DB) (s e : Nat) : List Nat :=
  sortDates (datePool db s e).dedup

/-- One emitted reconciliation row. -/
structure SummaryRow where
  date : Nat
  openingCash : Rat
  cashIn : Rat
  cashExpense : Rat
  cashNeeded : Rat
  closingCash : Rat
  cashInHand : Option Rat
  cashShortExcess : Rat
  bank : Rat
  creditSale : Rat
  totalSales : Rat
deriving DecidableEq, Repr

/-- The day's opening balance: `prev_cash_in_hand if prev_cash_in_hand
is not None else prev_closing` (the `idx == 0` branch of the loop
coincides with this because the state starts as `(None, seed)`). -/
def openingOf (prevCIH : Option Rat) (prevClosing : Rat) : Rat :=
  match prevCIH with
  | some v => v
  | none => prevClosing

/-- One emitted reconciliation row, given the day's opening balance:
the per-day aggregates, `cash_needed = opening + cash_in −
cash_expense`, and the recorded-count override of `closing_cash` and
`cash_short_excess`. -/
def summaryRowFor (db : DB) (s e : Nat) (opening : Rat) (d : Nat) : SummaryRow :=
  let cashIn := daySum db d cashInAmt
  let cashExpense := daySum db d cashExpenseAmt
  let computedClosing := opening + cashIn - cashExpense
  let cashInHand := dcLookupRange db s e d
  ⟨d, opening, cashIn, cashExpense, computedClosing,
    (match cashInHand with | some v => v | none => computedClosing),
    cashInHand,
    (match cashInHand with | some v => v - computedClosing | none => 0),
    daySum db d bankInAmt,
    daySum db d (creditSalesAmt db) - daySum db d (creditReceiptsAmt db),
    daySum db d totalSalesAmt⟩

/-- The ascending reconciliation walk (`for idx, d in enumerate(dates)`).
State carried between days: `prevCIH` (= `prev_cash_in_hand`, `none`
before the first day) and `prevClosing` (= `prev_closing`, initialised
to the effective opening seed). -/
def dailySummaryAux (db : DB) (s e : Nat) :
    Option Rat → Rat → List Nat → List SummaryRow
  | _, _, [] => []
  | prevCIH, prevClosing, d :: rest =>
    let opening := openingOf prevCIH prevClosing
    summaryRowFor db s e opening d ::
      dailySummaryAux db s e (dcLookupRange db s e d)
        (opening + daySum db d cashInAmt - daySum db d cashExpenseAmt) rest

/-- The reconciliation rows in ascending date order, i.e. the `summary`
list as built by the loop: the walk over the active dates, seeded with
`get_opening_cash_before_date` (the `if dates else` guard only skips
that derivation when there is no day to apply it to, so the value is
the same). -/
def dailySummaryRowsAsc (db : DB) (s e : Nat) : List SummaryRow :=
  dailySummaryAux db s e none (openingCashBeforeDate db s db.openingCashSeed)
    (activeDates db s e)

/-- `get_daily_summary_report` on a resolved range: the walk output
re-sorted descending by date.  The walk visits each distinct date once
in ascending order, so `sorted(summary, key=date, reverse=True)` is
exactly the reversal of the ascending list. -/
def getDailySummaryReport (db : DB) (s e : Nat) : List SummaryRow :=
  (dailySummaryRowsAsc db s e).reverse

/-! ### Short/excess report (`get_short_excess_report`, backend.py 1275–1289) -/

/-- A short/excess row: the seven shared columns. -/
structure ShortExcessRow where
  date : Nat
  openingCash : Rat
  cashIn : Rat
  cashExpense : Rat
  cashNeeded : Rat
  cashInHand : Option Rat
  cashShortExcess : Rat
deriving DecidableEq, Repr

/-- The projection applied to each daily-summary row. -/
def projectShortExcess (r : SummaryRow) : ShortExcessRow :=
  ⟨r.date, r.openingCash, r.cashIn, r.cashExpense, r.cashNeeded,
    r.cashInHand, r.cashShortExcess⟩

/-- `get_short_excess_report`: delegate to `get_daily_summary_report`
with the same arguments and project each row. -/
def getShortExcessReport (db : DB) (s e : Nat) : List ShortExcessRow :=
  (getDailySummaryReport db s e).map projectShortExcess

/-! ### Report cache and endpoints
(`cache_get` / `cache_set` / `invalidate_report_cache`, backend.py
52–69, and the mutating endpoints that call `invalidate_report_cache`
and `log_audit`). -/

/-- `REPORT_CACHE_TTL_SEC = 300`. -/
def reportCacheTTL : Nat := 300

/-- A cache key: `(current_company or "default", report kind,
str(start_date), str(end_date))`. -/
def CacheKey := String × String × String × String
deriving DecidableEq

/-- Report payloads that can be stored in the (heterogeneous) cache
dictionary. -/
inductive ReportPayload where
  | daily (rows : List SummaryRow)
  | modeRep (rows : List ModeRow)
deriving DecidableEq

/-- The `report_cache` dict: at most one entry per key, each carrying
the `time.time()` timestamp recorded by `cache_set`. -/
def Cache := List (CacheKey × Nat × ReportPayload)

/-- `cache_get`: miss on an absent key; on a present key, expire (pop)
it when `now - ts > TTL`, else hit.  Returns the possibly-updated dict
alongside the result.  (`time.time()` is modelled as a `Nat` supplied by
the caller; the clock never runs backwards across a stored timestamp.) -/
def cacheGet (c : Cache) (now : Nat) (k : CacheKey) : Option ReportPayload × Cache :=
  match (c : List (CacheKey × Nat × ReportPayload)).find? (fun ent => ent.1 = k) with
  | none => (none, c)
  | some ent =>
    if now - ent.2.1 > reportCacheTTL
    then (none, (c : List (CacheKey × Nat × ReportPayload)).filter (fun x => ¬ x.1 = k))
    else (some ent.2.2, c)

/-- `cache_set`: `report_cache[key] = (time.time(), data)` — one entry
per key, fresh timestamp. -/
def cacheSet (c : Cache) (now : Nat) (k : CacheKey) (p : ReportPayload) : Cache :=
  (k, now, p) :: (c : List (CacheKey × Nat × ReportPayload)).filter (fun x => ¬ x.1 = k)

/-- `invalidate_report_cache`: `report_cache.clear()`. -/
def invalidateReportCache : Cache := []

/-- The in-process application state the endpoints act on: the selected
company's database, the shared `report_cache`, and `current_company`. -/
structure AppState where
  db : DB
  cache : Cache
  company : String

/-- `resolve_date_range` after date parsing: swap the endpoints when
`start > end` (parsing and the `days` default involve the wall clock
and are out of the embedded core). -/
def resolveRange (s e : Nat) : Nat × Nat :=
  if s > e then (e, s) else (s, e)

/-- The cache key used by `get_daily_summary_report`. -/
def dailySummaryKey (company : String) (s e : Nat) : CacheKey :=
  (company, "daily_summary", toString s, toString e)

/-- `get_daily_summary_report` as an endpoint: resolve the range, try
the cache, on a miss compute and store (the empty active set is cached
as `[]` like any other result). -/
def dailySummaryEndpoint (st : AppState) (now : Nat) (s e : Nat) :
    ReportPayload × AppState :=
  let r := resolveRange s e
  let key := dailySummaryKey st.company r.1 r.2
  match cacheGet st.cache now key with
  | (some p, c') => (p, { st with cache := c' })
  | (none, c') =>
    let rows := getDailySummaryReport st.db r.1 r.2
    (.daily rows, { st with cache := cacheSet c' now key (.daily rows) })

/-- `get_mode_report` as an endpoint relation: it computes from the
store on every call and neither reads nor writes `report_cache`. -/
def modeReportOp (st : AppState) (mode : String)
    (out : List ModeRow) (st' : AppState) : Prop :=
  getModeReportSpec st.db mode out ∧ st' = st

/-- `log_audit`: append the audit row (with `company or current_company
or "default"` modelled as the selected company) and then
`invalidate_report_cache()`.  The write endpoints below call it after
their own work. -/
def logAudit (st : AppState) (username action details : String) : AppState :=
  { st with
    db := { st.db with
      auditLogs := st.db.auditLogs ++ [⟨username, action, details, st.company⟩] }
    cache := invalidateReportCache }

/-- `add_transaction`: look the party up by normalized name; on a miss
raise 404 with nothing written and the cache untouched; on success
insert the row (fresh `IDENTITY` id) and clear the cache. -/
def addTransactionEndpoint (st : AppState) (date : Nat)
    (billNo party txnType mode : String) (amount : Rat) :
    Except String Unit × AppState :=
  match partyIdByName st.db (normalizeName party) with
  | none => (.error "Party not found", st)
  | some pid =>
    let t : Txn := ⟨st.db.nextTxnId, date, billNo, pid, txnType, mode, amount⟩
    (.ok (), { st with
      db := { st.db with
        transactions := st.db.transactions ++ [t]
        nextTxnId := st.db.nextTxnId + 1 }
      cache := invalidateReportCache })

/-- The `daily_cash` upsert of `set_cash_in_hand`: `UPDATE` when a row
for the date exists, `INSERT` otherwise. -/
def upsertDailyCash (l : List DailyCashRow) (d : Nat) (v : Rat) : List DailyCashRow :=
  if l.any (fun r => r.cashDate = d) then
    l.map (fun r => if r.cashDate = d then { r with cashInHand := v } else r)
  else l ++ [⟨d, v⟩]

/-- `set_cash_in_hand`: upsert the count, `invalidate_report_cache()`,
then `log_audit` (which clears the cache again). -/
def setCashInHandEndpoint (st : AppState) (date : Nat) (v : Rat)
    (adminUser : String) : AppState :=
  let st₁ := { st with
    db := { st.db with dailyCash := upsertDailyCash st.db.dailyCash date v }
    cache := invalidateReportCache }
  logAudit st₁ adminUser "Set Cash In Hand" (toString date ++ " = " ++ toString v)

/-- `set_opening_cash`: store the seed setting,
`invalidate_report_cache()`, then `log_audit`. -/
def setOpeningCashEndpoint (st : AppState) (amount : Rat)
    (adminUser : String) : AppState :=
  let st₁ := { st with
    db := { st.db with openingCashSeed := amount }
    cache := invalidateReportCache }
  logAudit st₁ adminUser "Set Opening Cash"
    ("Opening Cash Seed set to " ++ toString amount)

/-- `login`, parameterised by the password-hash function
(`hashlib.sha256(...).hexdigest()` is outside the embedding): on a
credential match, `log_audit(username, "Login", ...)` then return the
role; otherwise raise 401 with the state untouched. -/
def loginEndpoint (hashFn : String → String) (st : AppState)
    (username password : String) : Option String × AppState :=
  match st.db.users.find? (fun u =>
      u.username = username ∧ u.passwordHash = hashFn password) with
  | some u => (some u.role, logAudit st username "Login" "User logged in")
  | none => (none, st)

/-- `create_user`: reject an existing username untouched; otherwise
insert the user and `log_audit("admin", "Create User", ...)`. -/
def createUserEndpoint (hashFn : String → String) (st : AppState)
    (username password role : String) : Except String Unit × AppState :=
  if st.db.users.any (fun u => u.username = username) then
    (.error "User already exists", st)
  else
    let st₁ := { st with
      db := { st.db with users := st.db.users ++ [⟨username, hashFn password, role⟩] } }
    (.ok (), logAudit st₁ "admin" "Create User"
      ("Created user " ++ username ++ " as " ++ role))

/-- `change_user_password`: 404 on a missing user; otherwise update the
hash and `log_audit`. -/
def changePasswordEndpoint (hashFn : String → String) (st : AppState)
    (username newPassword adminUser : String) : Except String Unit × AppState :=
  if st.db.users.any (fun u => u.username = username) then
    let st₁ := { st with
      db := { st.db with users := st.db.users.map (fun u =>
        if u.username = username then { u with passwordHash := hashFn newPassword }
        else u) } }
    (.ok (), logAudit st₁ adminUser "Change Password"
      ("Password changed for " ++ username))
  else (.error "User not found", st)

/-- `delete_user`: refuse to delete `admin` untouched; otherwise delete
the row and `log_audit("admin", "Delete User", ...)`. -/
def deleteUserEndpoint (st : AppState) (username : String) :
    Except String Unit × AppState :=
  if username = "admin" then (.error "Cannot delete default admin", st)
  else
    let st₁ := { st with
      db := { st.db with users := st.db.users.filter (fun u => ¬ u.username = username) } }
    (.ok (), logAudit st₁ "admin" "Delete User" ("Deleted user " ++ username))

/-- `get_ledger` lifted to the application state: it issues only
`SELECT`s and never touches `report_cache`, so the state is unchanged. -/
def ledgerOp (st : AppState) (party : String) (start? end? : Option Nat)
    (out : List LedgerRow) (st' : AppState) : Prop :=
  getLedgerSpec st.db party start? end? out ∧ st' = st

/-! #### Transaction-type report (`get_type_report`, backend.py 730–755) -/

/-- An emitted type-report row: `{date, bill_no, party, mode, amount}`. -/
structure TypeRow where
  date : Nat
  billNo : String
  party : String
  mode : String
  amount : Rat
deriving DecidableEq, Repr

/-- `WHERE t.txn_type = ?` combined with the inner join against
`parties`, rows in stored order. -/
def typeJoinedTxns (db : DB) (ttype : String) : List (Txn × String) :=
  (db.transactions.filter (fun t => t.txnType = ttype)).filterMap
    (fun t => (db.parties.find? (fun p => p.partyId = t.partyId)).map
      (fun p => (t, p.name)))

/-- Rendering of one joined transaction as a type-report row. -/
def typeRowOf (x : Txn × String) : TypeRow :=
  ⟨x.1.txnDate, x.1.billNo, x.2, x.1.paymentMode, x.1.amount⟩

/-- `get_type_report` as a relation: the response renders some
date-sorted permutation of the filtered-and-joined transactions
(`ORDER BY t.txn_date`, no secondary key). -/
def getTypeReportSpec (db : DB) (ttype : String) (out : List TypeRow) : Prop :=
  ∃ sorted, (typeJoinedTxns db ttype).Perm sorted ∧ sorted.Sorted dateLeJ ∧
    out = sorted.map typeRowOf

/-- `get_type_report` lifted to the application state: read-only, no
cache access. -/
def typeReportOp (st : AppState) (ttype : String)
    (out : List TypeRow) (st' : AppState) : Prop :=
  getTypeReportSpec st.db ttype out ∧ st' = st

/-! #### Aggregate reports (backend.py 756–898) -/

/-- `SUM(amount)` over the transactions satisfying a condition
(`float(val or 0)` makes the empty sum `0`). -/
def sumWhere (db : DB) (p : Txn → Bool) : Rat :=
  ((db.transactions.filter p).map (·.amount)).sum

/-- `get_outstanding_report`: for each `Credit Customer` party (the
`GROUP BY p.name` groups coincide with parties because display names
are unique under the unique `normalized_name` constraint), the balance
`Σ Sale − Σ Receipt`; only positive balances are emitted, along with
their grand total. -/
def getOutstandingReport (db : DB) : List (String × Rat) × Rat :=
  let rows := (db.parties.filter (fun p => p.ptype = "Credit Customer")).filterMap
    (fun p =>
      let s := ((db.transactions.filter (fun t => t.partyId = p.partyId)).map
        (fun t => if t.txnType = "Sale" then t.amount else 0)).sum
      let r := ((db.transactions.filter (fun t => t.partyId = p.partyId)).map
        (fun t => if t.txnType = "Receipt" then t.amount else 0)).sum
      if s - r > 0 then some (p.name, s - r) else none)
  (rows, (rows.map (·.2)).sum)

/-- `get_outstanding_report` as an endpoint: pure read, no cache. -/
def outstandingEndpoint (st : AppState) : (List (String × Rat) × Rat) × AppState :=
  (getOutstandingReport st.db, st)

/-- The `get_account_balance` helper of the trial balance: inflow
(Sale/Receipt) minus outflow (Expense) for one account, with `Bank`
meaning the whole bank-class alias set. -/
def accountBalance (db : DB) (mode : String) : Rat :=
  if mode = "Bank" then
    sumWhere db (fun t => t.paymentMode ∈ bankClassModes &&
        (t.txnType = "Sale" || t.txnType = "Receipt")) -
      sumWhere db (fun t => t.paymentMode ∈ bankClassModes && t.txnType = "Expense")
  else
    sumWhere db (fun t => t.paymentMode = mode &&
        (t.txnType = "Sale" || t.txnType = "Receipt")) -
      sumWhere db (fun t => t.paymentMode = mode && t.txnType = "Expense")

/-- `SUM(CASE WHEN txn_type = plusType THEN amount ELSE -amount END)`
over the transactions joined (inner) to `parties` — the simplified
Debtors/Creditors figures. -/
def signedSumJoin (db : DB) (plusType : String) : Rat :=
  ((db.transactions.filter (fun t =>
      (db.parties.find? (fun p => p.partyId = t.partyId)).isSome)).map
    (fun t => if t.txnType = plusType then t.amount else -t.amount)).sum

/-- One trial-balance line: `{account, debit, credit}`. -/
structure TrialRow where
  account : String
  debit : Rat
  credit : Rat
deriving DecidableEq, Repr

/-- Sign-splitting of a net balance into a (debit, credit) pair. -/
def balanceRow (name : String) (bal : Rat) : TrialRow :=
  ⟨name, if bal > 0 then bal else 0, if bal < 0 then -bal else 0⟩

/-- `get_trial_balance`: the seven fixed lines. -/
def getTrialBalance (db : DB) : List TrialRow :=
  [balanceRow "Cash Account" (accountBalance db "Cash"),
   balanceRow "Bank Account" (accountBalance db "Bank"),
   balanceRow "UPI Account" (accountBalance db "UPI"),
   balanceRow "Sundry Debtors" (signedSumJoin db "Sale"),
   balanceRow "Sundry Creditors" (signedSumJoin db "Purchase"),
   ⟨"Sales Account", 0, sumWhere db (fun t => t.txnType = "Sale")⟩,
   ⟨"Expense Account", sumWhere db (fun t => t.txnType = "Expense"), 0⟩]

/-- `get_trial_balance` as an endpoint: pure read, no cache. -/
def trialBalanceEndpoint (st : AppState) : List TrialRow × AppState :=
  (getTrialBalance st.db, st)

/-- The profit-and-loss payload. -/
structure PnlReport where
  sales : Rat
  expenses : Rat
  netProfit : Rat
deriving DecidableEq, Repr

/-- `get_pnl_report`: unconditioned Sale and Expense totals and their
difference. -/
def getPnlReport (db : DB) : PnlReport :=
  ⟨sumWhere db (fun t => t.txnType = "Sale"),
   sumWhere db (fun t => t.txnType = "Expense"),
   sumWhere db (fun t => t.txnType = "Sale") -
     sumWhere db (fun t => t.txnType = "Expense")⟩

/-- `get_pnl_report` as an endpoint: pure read, no cache. -/
def pnlEndpoint (st : AppState) : PnlReport × AppState :=
  (getPnlReport st.db, st)

/-- The dashboard payload. -/
structure Dashboard where
  salesToday : Rat
  salesMonth : Rat
  cashBalance : Rat
  bankBalance : Rat
  receivables : Rat
deriving DecidableEq, Repr

/-- `get_dashboard_metrics`: today's and month-to-date Sale totals
(`GETDATE()` is the wall clock, supplied as `today`, and the calendar
month/year of a date as `monthYear`), the Cash and bank-class balances,
and the `Customer`-restricted receivables (`LEFT`-free inner joins via
the unique `party_id`). -/
def getDashboardMetrics (db : DB) (today : Nat) (monthYear : Nat → Nat × Nat) :
    Dashboard :=
  ⟨sumWhere db (fun t => t.txnType = "Sale" && t.txnDate = today),
   sumWhere db (fun t => t.txnType = "Sale" && monthYear t.txnDate = monthYear today),
   sumWhere db (fun t => t.paymentMode = "Cash" &&
       (t.txnType = "Sale" || t.txnType = "Receipt")) -
     sumWhere db (fun t => t.paymentMode = "Cash" && t.txnType = "Expense"),
   sumWhere db (fun t => t.paymentMode ∈ bankClassModes &&
       (t.txnType = "Sale" || t.txnType = "Receipt")) -
     sumWhere db (fun t => t.paymentMode ∈ bankClassModes && t.txnType = "Expense"),
   sumWhere db (fun t => t.txnType = "Sale" &&
       partyTypeOf db t.partyId = some "Customer") -
     sumWhere db (fun t => t.txnType = "Receipt" &&
       partyTypeOf db t.partyId = some "Customer")⟩

/-- `get_dashboard_metrics` as an endpoint: pure read, no cache. -/
def dashboardEndpoint (st : AppState) (today : Nat) (monthYear : Nat → Nat × Nat) :
    Dashboard × AppState :=
  (getDashboardMetrics st.db today monthYear, st)

/-! #### Short-excess endpoint and the transaction edit/delete writes -/

/-- Projection of whatever `get_daily_summary_report` returned — in
every reachable state the daily-summary key holds a daily payload; the
mode branch is required only by the payload typing. -/
def shortExcessOfPayload : ReportPayload → List ShortExcessRow
  | .daily rows => rows.map projectShortExcess
  | .modeRep _ => []

/-- `get_short_excess_report` as an endpoint: delegate to the (cached)
daily-summary endpoint with the same arguments and project each row. -/
def shortExcessEndpoint (st : AppState) (now : Nat) (s e : Nat) :
    List ShortExcessRow × AppState :=
  let r := dailySummaryEndpoint st now s e
  (shortExcessOfPayload r.1, r.2)

/-- A typed single-field transaction update.  The endpoint's field
whitelist (`txn_date`, `bill_no`, `txn_type`, `payment_mode`,
`amount`) is the type itself: a disallowed field name errors before
any write, leaving state and cache untouched. -/
inductive TxnFieldUpdate where
  | txnDate (d : Nat)
  | billNo (b : String)
  | txnType (t : String)
  | paymentMode (m : String)
  | amount (a : Rat)
deriving DecidableEq, Repr

/-- Apply one whitelisted field update to a transaction row. -/
def applyUpdate (u : TxnFieldUpdate) (t : Txn) : Txn :=
  match u with
  | .txnDate d => { t with txnDate := d }
  | .billNo b => { t with billNo := b }
  | .txnType ty => { t with txnType := ty }
  | .paymentMode m => { t with paymentMode := m }
  | .amount a => { t with amount := a }

/-- `edit_transaction`: 404 on a missing id with nothing written and
the cache untouched; on success update the field, clear the cache,
then `log_audit`. -/
def editTransactionEndpoint (st : AppState) (txnId : Nat) (upd : TxnFieldUpdate)
    (adminUser : String) : Except String Unit × AppState :=
  match st.db.transactions.find? (fun t => t.txnId = txnId) with
  | none => (.error "Transaction not found", st)
  | some _ =>
    let st₁ := { st with
      db := { st.db with transactions :=
        (st.db.transactions.map
          (fun t => if t.txnId = txnId then applyUpdate upd t else t)) }
      cache := invalidateReportCache }
    (.ok (), logAudit st₁ adminUser "Edit Transaction"
      ("Changed a field for Txn ID " ++ toString txnId))

/-- `delete_transaction`: 404 on a missing id with nothing written and
the cache untouched; on success delete the row, clear the cache, then
`log_audit`. -/
def deleteTransactionEndpoint (st : AppState) (txnId : Nat)
    (adminUser : String) : Except String Unit × AppState :=
  match st.db.transactions.find? (fun t => t.txnId = txnId) with
  | none => (.error "Transaction not found", st)
  | some _ =>
    let st₁ := { st with
      db := { st.db with transactions :=
        (st.db.transactions.filter (fun t => ¬ t.txnId = txnId)) }
      cache := invalidateReportCache }
    (.ok (), logAudit st₁ adminUser "Delete Transaction"
      ("Deleted Txn ID " ++ toString txnId))

/-! ## Helper lemmas -/

/-- Summing a conditional contribution equals summing the projection
over the filtered list. -/
lemma sum_map_ite_eq_sum_filter (l : List Txn) (p : Txn → Prop) [DecidablePred p]
    (f : Txn → Rat) :
    (l.map (fun t => if p t then f t else 0)).sum =
      ((l.filter (fun t => decide (p t))).map f).sum := by
  induction l with
  | nil => simp
  | cons t rest ih =>
    by_cases h : p t <;> simp [h, ih]

/-- Sums distribute over pointwise addition of contributions. -/
lemma sum_map_add (l : List Txn) (f g : Txn → Rat) :
    (l.map (fun t => f t + g t)).sum = (l.map f).sum + (l.map g).sum := by
  induction l with
  | nil => simp
  | cons t rest ih => simp [ih]; ring

/-- The accumulator step of `recentCountBefore`. -/
def bestCountStep (best : Option DailyCashRow) (r : DailyCashRow) : Option DailyCashRow :=
  match best with
  | none => some r
  | some b => if b.cashDate < r.cashDate then some r else some b

lemma recentCountBefore_eq_foldl (db : DB) (s : Nat) :
    recentCountBefore db s =
      (db.dailyCash.filter (fun r => r.cashDate < s)).foldl bestCountStep none := rfl

/-- Folding `bestCountStep` from a seeded accumulator yields a row that
comes from the seed or the list and dominates both. -/
lemma foldl_bestCountStep_some (l : List DailyCashRow) :
    ∀ b₀ : DailyCashRow, ∃ b, l.foldl bestCountStep (some b₀) = some b ∧
      (b = b₀ ∨ b ∈ l) ∧ b₀.cashDate ≤ b.cashDate ∧
      ∀ x ∈ l, x.cashDate ≤ b.cashDate := by
  induction l with
  | nil => exact fun b₀ => ⟨b₀, rfl, Or.inl rfl, le_refl _, by simp⟩
  | cons r rest ih =>
    intro b₀
    by_cases h : b₀.cashDate < r.cashDate
    · obtain ⟨b, hfold, hmem, hle, hall⟩ := ih r
      refine ⟨b, ?_, ?_, ?_, ?_⟩
      · simpa [List.foldl_cons, bestCountStep, h] using hfold
      · rcases hmem with rfl | hb
        · exact Or.inr (List.mem_cons_self _ _)
        · exact Or.inr (List.mem_cons_of_mem _ hb)
      · exact le_trans (le_of_lt h) hle
      · intro x hx
        rcases List.mem_cons.mp hx with rfl | hx'
        · exact hle
        · exact hall x hx'
    · obtain ⟨b, hfold, hmem, hle, hall⟩ := ih b₀
      refine ⟨b, ?_, ?_, hle, ?_⟩
      · simpa [List.foldl_cons, bestCountStep, h] using hfold
      · rcases hmem with rfl | hb
        · exact Or.inl rfl
        · exact Or.inr (List.mem_cons_of_mem _ hb)
      · intro x hx
        rcases List.mem_cons.mp hx with rfl | hx'
        · exact le_trans (le_of_not_lt h) hle
        · exact hall x hx'

/-- On a nonempty list, the fold returns a member dominating every
member. -/
lemma foldl_bestCountStep_max (l : List DailyCashRow) (hne : l ≠ []) :
    ∃ b, l.foldl bestCountStep none = some b ∧ b ∈ l ∧
      ∀ x ∈ l, x.cashDate ≤ b.cashDate := by
  cases l with
  | nil => exact absurd rfl hne
  | cons r rest =>
    obtain ⟨b, hfold, hmem, hle, hall⟩ := foldl_bestCountStep_some rest r
    refine ⟨b, ?_, ?_, ?_⟩
    · simpa [List.foldl_cons, bestCountStep] using hfold
    · rcases hmem with rfl | hb
      · exact List.mem_cons_self _ _
      · exact List.mem_cons_of_mem _ hb
    · intro x hx
      rcases List.mem_cons.mp hx with rfl | hx'
      · exact hle
      · exact hall x hx'

/-! ## C3: effective opening balance before the range -/

/-- C3: `get_opening_cash_before_date` returns the most recent
`DailyCashCount` amount recorded strictly before `start` when one
exists (here: a count before `start` whose date strictly dominates
every other count before `start`); otherwise it returns the seed plus
the cash-in sums (Cash with type Sale/Receipt, plus Credit with type
Receipt) minus the Cash/Expense sum, over all transactions dated
strictly before `start`. -/
theorem claim_C3_opening_cash_before (db : DB) (s : Nat) (seed : Rat) :
    (∀ r ∈ db.dailyCash, r.cashDate < s →
      (∀ r' ∈ db.dailyCash, r' ≠ r → r'.cashDate < s → r'.cashDate < r.cashDate) →
      openingCashBeforeDate db s seed = r.cashInHand) ∧
    ((∀ r ∈ db.dailyCash, ¬ r.cashDate < s) →
      openingCashBeforeDate db s seed =
        seed
        + (((txnsBefore db s).filter (fun t =>
            t.paymentMode = "Cash" ∧ (t.txnType = "Sale" ∨ t.txnType = "Receipt"))).map
              (·.amount)).sum
        + (((txnsBefore db s).filter (fun t =>
            t.paymentMode = "Credit" ∧ t.txnType = "Receipt")).map (·.amount)).sum
        - (((txnsBefore db s).filter (fun t =>
            t.paymentMode = "Cash" ∧ t.txnType = "Expense")).map (·.amount)).sum) := by
  constructor
  · intro r hr hrs hmax
    have hrmem : r ∈ db.dailyCash.filter (fun x => x.cashDate < s) :=
      List.mem_filter.mpr ⟨hr, by simpa using hrs⟩
    have hne : db.dailyCash.filter (fun x => x.cashDate < s) ≠ [] :=
      List.ne_nil_of_mem hrmem
    obtain ⟨b, hfold, hbmem, hball⟩ :=
      foldl_bestCountStep_max (db.dailyCash.filter (fun x => x.cashDate < s)) hne
    have hbdc : b ∈ db.dailyCash := (List.mem_filter.mp hbmem).1
    have hbs : b.cashDate < s := by
      have := (List.mem_filter.mp hbmem).2
      simpa using this
    have hbr : b = r := by
      by_contra hbr
      have h1 : b.cashDate < r.cashDate := hmax b hbdc hbr hbs
      have h2 : r.cashDate ≤ b.cashDate := hball r hrmem
      omega
    unfold openingCashBeforeDate
    rw [recentCountBefore_eq_foldl, hfold, hbr]
  · intro hnone
    have hfil : db.dailyCash.filter (fun x => x.cashDate < s) = [] := by
      apply List.filter_eq_nil_iff.mpr
      intro r hr
      simpa using hnone r hr
    unfold openingCashBeforeDate
    rw [recentCountBefore_eq_foldl, hfil]
    simp only [List.foldl_nil]
    have hin : ((txnsBefore db s).map cashInAmt).sum =
        (((txnsBefore db s).filter (fun t =>
            t.paymentMode = "Cash" ∧ (t.txnType = "Sale" ∨ t.txnType = "Receipt"))).map
              (·.amount)).sum
        + (((txnsBefore db s).filter (fun t =>
            t.paymentMode = "Credit" ∧ t.txnType = "Receipt")).map (·.amount)).sum := by
      unfold cashInAmt
      rw [sum_map_add]
      rw [sum_map_ite_eq_sum_filter _ (fun t =>
        t.paymentMode = "Cash" ∧ (t.txnType = "Sale" ∨ t.txnType = "Receipt")) (·.amount)]
      rw [sum_map_ite_eq_sum_filter _ (fun t =>
        t.paymentMode = "Credit" ∧ t.txnType = "Receipt") (·.amount)]
    have hout : ((txnsBefore db s).map cashExpenseAmt).sum =
        (((txnsBefore db s).filter (fun t =>
            t.paymentMode = "Cash" ∧ t.txnType = "Expense")).map (·.amount)).sum := by
      unfold cashExpenseAmt
      rw [sum_map_ite_eq_sum_filter _ (fun t =>
        t.paymentMode = "Cash" ∧ t.txnType = "Expense") (·.amount)]
    rw [hin, hout]
    ring

/-! ## Sample data for witnesses -/

/-- Sample party 1: a credit customer. -/
def partyW1 : Party := ⟨1, "Acme Corp", "acme_corp", "Credit Customer", true⟩

/-- Sample party 2: a plain customer with no transactions. -/
def partyW2 : Party := ⟨2, "Shop", "shop", "Customer", false⟩

/-- Sample transaction: cash sale on day 10. -/
def txnW1 : Txn := ⟨1, 10, "B1", 1, "Sale", "Cash", 500⟩

/-- Sample transaction: cash receipt on day 10 (same date as `txnW1`). -/
def txnW2 : Txn := ⟨2, 10, "B2", 1, "Receipt", "Cash", 200⟩

/-- Sample transaction: cash expense on day 11. -/
def txnW3 : Txn := ⟨3, 11, "B3", 1, "Expense", "Cash", 50⟩

/-- The sample database used by the concrete witnesses. -/
def dbW : DB :=
  { users := [⟨"admin", "hpw", "admin"⟩]
    auditLogs := []
    parties := [partyW1, partyW2]
    transactions := [txnW1, txnW2, txnW3]
    dailyCash := [⟨11, 300⟩]
    openingCashSeed := 1000
    nextTxnId := 4 }

/-- C3 witness: at `start = 12` the recorded count of day 11 (300) wins;
at `start = 11` no count exists before the range and the derived seed
is `1000 + (500 + 200) − 0 = 1700` (the expense is dated 11, not
before it). -/
theorem claim_C3_witness :
    openingCashBeforeDate dbW 12 dbW.openingCashSeed = 300 ∧
    openingCashBeforeDate dbW 11 dbW.openingCashSeed = 1700 := by
  constructor
  · have h := (claim_C3_opening_cash_before dbW 12 dbW.openingCashSeed).1
      ⟨11, 300⟩ (by decide) (by decide) (by decide)
    simpa using h
  · have h := (claim_C3_opening_cash_before dbW 11 dbW.openingCashSeed).2 (by decide)
    rw [h]
    simp [txnsBefore, dbW, txnW1, txnW2, txnW3]
    norm_num

/-! ## C8: short/excess report is a column projection -/

/-- C8: for identical range arguments, the short-excess report has the
same length as the daily cash reconciliation report and every row
agrees with the corresponding reconciliation row on all seven shared
fields. -/
theorem claim_C8_short_excess_projection (db : DB) (s e : Nat) :
    (getShortExcessReport db s e).length = (getDailySummaryReport db s e).length ∧
    ∀ i (h : i < (getShortExcessReport db s e).length)
      (h' : i < (getDailySummaryReport db s e).length),
      ((getShortExcessReport db s e).get ⟨i, h⟩).date =
        ((getDailySummaryReport db s e).get ⟨i, h'⟩).date ∧
      ((getShortExcessReport db s e).get ⟨i, h⟩).openingCash =
        ((getDailySummaryReport db s e).get ⟨i, h'⟩).openingCash ∧
      ((getShortExcessReport db s e).get ⟨i, h⟩).cashIn =
        ((getDailySummaryReport db s e).get ⟨i, h'⟩).cashIn ∧
      ((getShortExcessReport db s e).get ⟨i, h⟩).cashExpense =
        ((getDailySummaryReport db s e).get ⟨i, h'⟩).cashExpense ∧
      ((getShortExcessReport db s e).get ⟨i, h⟩).cashNeeded =
        ((getDailySummaryReport db s e).get ⟨i, h'⟩).cashNeeded ∧
      ((getShortExcessReport db s e).get ⟨i, h⟩).cashInHand =
        ((getDailySummaryReport db s e).get ⟨i, h'⟩).cashInHand ∧
      ((getShortExcessReport db s e).get ⟨i, h⟩).cashShortExcess =
        ((getDailySummaryReport db s e).get ⟨i, h'⟩).cashShortExcess := by
  refine ⟨by simp [getShortExcessReport], ?_⟩
  intro i h h'
  simp [getShortExcessReport, projectShortExcess]

/-- C8 witness: the projection equalities evaluated on the sample
database over the range `[10, 12]`, which has two active dates. -/
theorem claim_C8_witness :
    (getShortExcessReport dbW 10 12).length = (getDailySummaryReport dbW 10 12).length ∧
    ((getShortExcessReport dbW 10 12).get ⟨0, by decide⟩).cashShortExcess =
      ((getDailySummaryReport dbW 10 12).get ⟨0, by decide⟩).cashShortExcess := by
  refine ⟨(claim_C8_short_excess_projection dbW 10 12).1, ?_⟩
  have h := ((claim_C8_short_excess_projection dbW 10 12).2 0 (by decide) (by decide))
  exact h.2.2.2.2.2.2

/-! ## Ledger lemmas -/

lemma ledgerRowsFrom_length (l : List Txn) :
    ∀ bal : Rat, (ledgerRowsFrom bal l).length = l.length := by
  induction l with
  | nil => intro bal; rfl
  | cons t rest ih => intro bal; simp [ledgerRowsFrom, ih]

lemma ledgerRowsFrom_cons (t : Txn) (rest : List Txn) (bal : Rat) :
    ledgerRowsFrom bal (t :: rest) =
      ⟨t.txnId, t.txnDate, t.billNo, t.txnType, t.paymentMode, t.amount,
        ledgerStep bal t.txnType t.amount⟩
        :: ledgerRowsFrom (ledgerStep bal t.txnType t.amount) rest := rfl

/-- The first emitted row applies the balance rule to the start balance. -/
lemma ledgerRowsFrom_get_zero (l : List Txn) (bal : Rat)
    (h0 : 0 < (ledgerRowsFrom bal l).length) :
    ((ledgerRowsFrom bal l).get ⟨0, h0⟩).balance =
      ledgerStep bal ((ledgerRowsFrom bal l).get ⟨0, h0⟩).ttype
        ((ledgerRowsFrom bal l).get ⟨0, h0⟩).amount := by
  cases l with
  | nil => simp [ledgerRowsFrom] at h0
  | cons t rest => rfl

/-- Each later row applies the balance rule to the preceding row's
balance. -/
lemma ledgerRowsFrom_balance_rec (l : List Txn) :
    ∀ (bal : Rat) (i : Nat) (h : i + 1 < (ledgerRowsFrom bal l).length)
      (h' : i < (ledgerRowsFrom bal l).length),
      ((ledgerRowsFrom bal l).get ⟨i + 1, h⟩).balance =
        ledgerStep ((ledgerRowsFrom bal l).get ⟨i, h'⟩).balance
          ((ledgerRowsFrom bal l).get ⟨i + 1, h⟩).ttype
          ((ledgerRowsFrom bal l).get ⟨i + 1, h⟩).amount := by
  induction l with
  | nil => intro bal i h h'; simp [ledgerRowsFrom] at h
  | cons t rest ih =>
    intro bal i h h'
    have hlen : (ledgerRowsFrom bal (t :: rest)).length =
        (ledgerRowsFrom (ledgerStep bal t.txnType t.amount) rest).length + 1 := by
      rw [ledgerRowsFrom_cons]; simp
    match i with
    | 0 =>
      have h0 : 0 < (ledgerRowsFrom (ledgerStep bal t.txnType t.amount) rest).length := by
        omega
      exact ledgerRowsFrom_get_zero rest (ledgerStep bal t.txnType t.amount) h0
    | j + 1 =>
      have hj : j + 1 < (ledgerRowsFrom (ledgerStep bal t.txnType t.amount) rest).length := by
        omega
      have hj' : j < (ledgerRowsFrom (ledgerStep bal t.txnType t.amount) rest).length := by
        omega
      exact ih (ledgerStep bal t.txnType t.amount) j hj hj'

lemma ledgerStep_sale (bal amount : Rat) (ttype : String) (h : ttype = "Sale") :
    ledgerStep bal ttype amount = bal + amount := by
  simp [ledgerStep, h]

lemma ledgerStep_not_sale (bal amount : Rat) (ttype : String) (h : ¬ ttype = "Sale") :
    ledgerStep bal ttype amount = bal - amount := by
  unfold ledgerStep
  rw [if_neg h]
  split <;> rfl

/-- Every emitted row's date is the date of a source transaction. -/
lemma mem_ledgerRowsFrom_date :
    ∀ (l : List Txn) (bal : Rat) (r : LedgerRow), r ∈ ledgerRowsFrom bal l →
      ∃ t ∈ l, r.date = t.txnDate := by
  intro l
  induction l with
  | nil => intro bal r hr; simp [ledgerRowsFrom] at hr
  | cons t rest ih =>
    intro bal r hr
    rw [ledgerRowsFrom_cons] at hr
    rcases List.mem_cons.mp hr with rfl | hr'
    · exact ⟨t, List.mem_cons_self _ _, rfl⟩
    · obtain ⟨u, hu, hdate⟩ := ih _ r hr'
      exact ⟨u, List.mem_cons_of_mem _ hu, hdate⟩

/-- Date order on emitted ledger rows. -/
def rowDateLe (a b : LedgerRow) : Prop := a.date ≤ b.date

instance : DecidableRel rowDateLe := fun a b => by
  unfold rowDateLe; infer_instance

/-- Lexicographic (date, id) order on emitted ledger rows — the order
the claim asserts. -/
def rowDateIdLe (a b : LedgerRow) : Prop :=
  a.date < b.date ∨ (a.date = b.date ∧ a.id ≤ b.id)

instance : DecidableRel rowDateIdLe := fun a b => by
  unfold rowDateIdLe; infer_instance

/-- The balance walk preserves date sortedness of its input. -/
lemma ledgerRowsFrom_sorted (l : List Txn) :
    ∀ bal : Rat, l.Sorted dateLe → (ledgerRowsFrom bal l).Sorted rowDateLe := by
  induction l with
  | nil => intro bal _; simp [ledgerRowsFrom]
  | cons t rest ih =>
    intro bal hs
    rw [List.sorted_cons] at hs
    rw [ledgerRowsFrom_cons, List.sorted_cons]
    refine ⟨?_, ih _ hs.2⟩
    intro r hr
    obtain ⟨u, hu, hdate⟩ := mem_ledgerRowsFrom_date _ _ r hr
    show t.txnDate ≤ r.date
    rw [hdate]
    exact hs.1 u hu

/-! ## C5: ledger running-balance rule -/

/-- C5: in any possible ledger response, each row's running balance is
the previous balance plus the amount for a `Sale`, minus the amount
for a `Receipt` or `"Sale Return"`, and minus the amount for every
other type, starting from `0`. -/
theorem claim_C5_ledger_balance_rule (db : DB) (party : String)
    (start? end? : Option Nat) (out : List LedgerRow)
    (hout : getLedgerSpec db party start? end? out) :
    (∀ h0 : 0 < out.length,
      ((out.get ⟨0, h0⟩).ttype = "Sale" →
        (out.get ⟨0, h0⟩).balance = 0 + (out.get ⟨0, h0⟩).amount) ∧
      (((out.get ⟨0, h0⟩).ttype = "Receipt" ∨ (out.get ⟨0, h0⟩).ttype = "Sale Return") →
        (out.get ⟨0, h0⟩).balance = 0 - (out.get ⟨0, h0⟩).amount) ∧
      (¬ (out.get ⟨0, h0⟩).ttype = "Sale" →
        (out.get ⟨0, h0⟩).balance = 0 - (out.get ⟨0, h0⟩).amount)) ∧
    (∀ i (h : i + 1 < out.length) (h' : i < out.length),
      ((out.get ⟨i + 1, h⟩).ttype = "Sale" →
        (out.get ⟨i + 1, h⟩).balance =
          (out.get ⟨i, h'⟩).balance + (out.get ⟨i + 1, h⟩).amount) ∧
      (((out.get ⟨i + 1, h⟩).ttype = "Receipt" ∨
          (out.get ⟨i + 1, h⟩).ttype = "Sale Return") →
        (out.get ⟨i + 1, h⟩).balance =
          (out.get ⟨i, h'⟩).balance - (out.get ⟨i + 1, h⟩).amount) ∧
      (¬ (out.get ⟨i + 1, h⟩).ttype = "Sale" →
        (out.get ⟨i + 1, h⟩).balance =
          (out.get ⟨i, h'⟩).balance - (out.get ⟨i + 1, h⟩).amount)) := by
  unfold getLedgerSpec at hout
  cases hpid : partyIdByName db party with
  | none =>
    rw [hpid] at hout
    subst hout
    constructor
    · intro h0; exact absurd h0 (by simp)
    · intro i h h'; exact absurd h (by simp)
  | some pid =>
    rw [hpid] at hout
    obtain ⟨sorted, _, hout_eq⟩ := hout
    subst hout_eq
    constructor
    · intro h0
      have hz := ledgerRowsFrom_get_zero sorted 0 h0
      refine ⟨?_, ?_, ?_⟩
      · intro hsale; rw [hz, ledgerStep_sale _ _ _ hsale]
      · intro hrec
        have hns : ¬ ((ledgerRowsFrom 0 sorted).get ⟨0, h0⟩).ttype = "Sale" := by
          intro hs
          rcases hrec with h1 | h1 <;> rw [hs] at h1 <;> simp at h1
        rw [hz, ledgerStep_not_sale _ _ _ hns]
      · intro hns; rw [hz, ledgerStep_not_sale _ _ _ hns]
    · intro i h h'
      have hr := ledgerRowsFrom_balance_rec sorted 0 i h h'
      refine ⟨?_, ?_, ?_⟩
      · intro hsale; rw [hr, ledgerStep_sale _ _ _ hsale]
      · intro hrec
        have hns : ¬ ((ledgerRowsFrom 0 sorted).get ⟨i + 1, h⟩).ttype = "Sale" := by
          intro hs
          rcases hrec with h1 | h1 <;> rw [hs] at h1 <;> simp at h1
        rw [hr, ledgerStep_not_sale _ _ _ hns]
      · intro hns; rw [hr, ledgerStep_not_sale _ _ _ hns]

/-- The ledger response realised by walking the sample party's
transactions in stored order (which is already date-sorted). -/
def ledgerOutW : List LedgerRow := ledgerRowsFrom 0 [txnW1, txnW2, txnW3]

lemma getLedgerSpec_dbW_outW : getLedgerSpec dbW "acme_corp" none none ledgerOutW := by
  unfold getLedgerSpec
  have hpid : partyIdByName dbW "acme_corp" = some 1 := rfl
  rw [hpid]
  refine ⟨[txnW1, txnW2, txnW3], ⟨?_, ?_⟩, rfl⟩
  · have : ledgerTxns dbW 1 none none = [txnW1, txnW2, txnW3] := rfl
    rw [this]
  · decide

/-- C5 witness: on the sample ledger (Sale 500, Receipt 200, Expense
50, all for the same party), the theorem yields the balance recurrence
at rows 1 and 2. -/
theorem claim_C5_witness :
    (ledgerOutW.get ⟨1, by decide⟩).balance =
      (ledgerOutW.get ⟨0, by decide⟩).balance - (ledgerOutW.get ⟨1, by decide⟩).amount ∧
    (ledgerOutW.get ⟨2, by decide⟩).balance =
      (ledgerOutW.get ⟨1, by decide⟩).balance - (ledgerOutW.get ⟨2, by decide⟩).amount := by
  have h := (claim_C5_ledger_balance_rule dbW "acme_corp" none none ledgerOutW
    getLedgerSpec_dbW_outW).2
  exact ⟨(h 0 (by decide) (by decide)).2.1 (by decide),
    (h 1 (by decide) (by decide)).2.2 (by decide)⟩

/-! ## C6: ledger ordering (corrected) -/

/-- C6 counterexample: the ledger query orders only by `txn_date`, so a
date-sorted ordering that breaks a same-date tie against id order is a
legitimate response: with two transactions on day 10 (ids 1 and 2), the
response that lists id 2 before id 1 satisfies the endpoint relation
but is not sorted by (date, id). -/
theorem claim_C6_counterexample :
    getLedgerSpec dbW "acme_corp" none none (ledgerRowsFrom 0 [txnW2, txnW1, txnW3]) ∧
    ¬ (ledgerRowsFrom 0 [txnW2, txnW1, txnW3]).Sorted rowDateIdLe := by
  constructor
  · unfold getLedgerSpec
    have hpid : partyIdByName dbW "acme_corp" = some 1 := rfl
    rw [hpid]
    refine ⟨[txnW2, txnW1, txnW3], ⟨?_, ?_⟩, rfl⟩
    · have : ledgerTxns dbW 1 none none = [txnW1, txnW2, txnW3] := rfl
      rw [this]
      exact List.Perm.swap _ _ _
    · decide
  · decide

/-- C6 (amended): the rows of any ledger response are ordered by
transaction date ascending, for every party and every optional date
range; the relative order of rows sharing a date is not determined
(the query has no secondary sort key). -/
theorem claim_C6_ledger_date_order (db : DB) (party : String)
    (start? end? : Option Nat) (out : List LedgerRow)
    (hout : getLedgerSpec db party start? end? out) :
    out.Sorted rowDateLe := by
  unfold getLedgerSpec at hout
  cases hpid : partyIdByName db party with
  | none => rw [hpid] at hout; subst hout; simp
  | some pid =>
    rw [hpid] at hout
    obtain ⟨sorted, ⟨_, hsorted⟩, hout_eq⟩ := hout
    subst hout_eq
    exact ledgerRowsFrom_sorted sorted 0 hsorted

/-- C6 witness: the amended ordering theorem applied to the sample
ledger response. -/
theorem claim_C6_witness : ledgerOutW.Sorted rowDateLe :=
  claim_C6_ledger_date_order dbW "acme_corp" none none ledgerOutW
    getLedgerSpec_dbW_outW

/-! ## C9: ledger degradation to empty, read-only -/

/-- C9: the ledger operation never mutates the store; it returns `[]`
(rather than failing) when the requested party does not exist, and
returns `[]` for an existing party with no transactions, for every
optional date range. -/
theorem claim_C9_ledger_empty_cases (db : DB) (party : String)
    (start? end? : Option Nat) (out : List LedgerRow) (db' : DB) :
    (getLedgerOp db party start? end? out db' → db' = db) ∧
    (partyIdByName db party = none →
      getLedgerOp db party start? end? out db' → out = [] ∧ db' = db) ∧
    (∀ pid, partyIdByName db party = some pid →
      (∀ t ∈ db.transactions, ¬ t.partyId = pid) →
      getLedgerOp db party start? end? out db' → out = [] ∧ db' = db) := by
  refine ⟨fun hop => hop.2, ?_, ?_⟩
  · intro hnone hop
    refine ⟨?_, hop.2⟩
    have hspec := hop.1
    unfold getLedgerSpec at hspec
    rw [hnone] at hspec
    exact hspec
  · intro pid hpid hno hop
    refine ⟨?_, hop.2⟩
    have hspec := hop.1
    unfold getLedgerSpec at hspec
    rw [hpid] at hspec
    obtain ⟨sorted, ⟨hperm, _⟩, hout_eq⟩ := hspec
    have hfil : ledgerTxns db pid start? end? = [] := by
      apply List.filter_eq_nil_iff.mpr
      intro t ht
      simp only [Bool.and_eq_true, decide_eq_true_eq]
      rintro ⟨⟨hpid', -⟩, -⟩
      exact (hno t ht) hpid'
    rw [hfil] at hperm
    have hsorted_nil : sorted = [] := hperm.symm.eq_nil
    subst hsorted_nil
    subst hout_eq
    rfl

/-- C9 witness: a nonexistent party name (`ghost`) and the
transaction-free sample party `shop` both admit the empty ledger with
the store untouched, and the theorem applies to both concrete calls. -/
theorem claim_C9_witness :
    partyIdByName dbW "ghost" = none ∧
    getLedgerOp dbW "ghost" none none [] dbW ∧
    partyIdByName dbW "shop" = some 2 ∧
    getLedgerOp dbW "shop" none none [] dbW ∧
    dbW = dbW := by
  have hghost : partyIdByName dbW "ghost" = none := rfl
  have hshop : partyIdByName dbW "shop" = some 2 := rfl
  have hopg : getLedgerOp dbW "ghost" none none [] dbW := by
    refine ⟨?_, rfl⟩
    unfold getLedgerSpec
    rw [hghost]
  have hops : getLedgerOp dbW "shop" none none [] dbW := by
    refine ⟨?_, rfl⟩
    unfold getLedgerSpec
    rw [hshop]
    refine ⟨[], ⟨?_, by simp⟩, rfl⟩
    have hfil : ledgerTxns dbW 2 none none = [] := rfl
    rw [hfil]
  refine ⟨hghost, hopg, hshop, hops, ?_⟩
  exact ((claim_C9_ledger_empty_cases dbW "shop" none none [] dbW).2.2 2 hshop
    (by decide) hops).2

/-! ## Account-report lemmas and C4 -/

/-- The debit/credit classification the claim asserts of one emitted
row, relative to the previous running balance and the source
transaction the row renders. -/
def modeRowRule (prev : Rat) (x : Txn × String) (cur : ModeRow) : Prop :=
  cur.date = x.1.txnDate ∧ cur.party = x.2 ∧ cur.ttype = x.1.txnType ∧
  ((x.1.txnType = "Sale" ∨ x.1.txnType = "Receipt") →
    cur.debit = x.1.amount ∧ cur.credit = 0 ∧ cur.balance = prev + x.1.amount) ∧
  (¬ (x.1.txnType = "Sale" ∨ x.1.txnType = "Receipt") →
    cur.debit = 0 ∧ cur.credit = x.1.amount ∧ cur.balance = prev - x.1.amount)

lemma modeRow_balance (bal : Rat) (t : Txn) (pname : String) :
    (modeRow bal t pname).balance = modeStep bal t := by
  unfold modeRow modeStep
  split <;> rfl

lemma modeRow_rule (bal : Rat) (t : Txn) (pname : String) :
    modeRowRule bal (t, pname) (modeRow bal t pname) := by
  by_cases hin : isInflow t.txnType
  · unfold modeRowRule modeRow
    rw [if_pos hin]
    exact ⟨rfl, rfl, rfl, fun _ => ⟨rfl, rfl, rfl⟩, fun hn => absurd hin hn⟩
  · unfold modeRowRule modeRow
    rw [if_neg hin]
    exact ⟨rfl, rfl, rfl, fun hy => absurd hy hin, fun _ => ⟨rfl, rfl, rfl⟩⟩

lemma modeRowsFrom_length (l : List (Txn × String)) :
    ∀ bal : Rat, (modeRowsFrom bal l).length = l.length := by
  induction l with
  | nil => intro bal; rfl
  | cons x rest ih =>
    obtain ⟨t, pname⟩ := x
    intro bal
    simp [modeRowsFrom, ih]

/-- The first emitted row obeys the classification rule for the first
source transaction, relative to the start balance. -/
lemma modeRowsFrom_zero_rule (l : List (Txn × String)) (bal : Rat)
    (h0 : 0 < (modeRowsFrom bal l).length) (h0' : 0 < l.length) :
    modeRowRule bal (l.get ⟨0, h0'⟩) ((modeRowsFrom bal l).get ⟨0, h0⟩) := by
  cases l with
  | nil => simp [modeRowsFrom] at h0
  | cons x rest =>
    obtain ⟨t, pname⟩ := x
    exact modeRow_rule bal t pname

/-- Each later row obeys the classification rule for its source
transaction, relative to the previous row's balance. -/
lemma modeRowsFrom_rec (l : List (Txn × String)) :
    ∀ (bal : Rat) (i : Nat) (h : i + 1 < (modeRowsFrom bal l).length)
      (h' : i < (modeRowsFrom bal l).length) (hs : i + 1 < l.length),
      modeRowRule ((modeRowsFrom bal l).get ⟨i, h'⟩).balance (l.get ⟨i + 1, hs⟩)
        ((modeRowsFrom bal l).get ⟨i + 1, h⟩) := by
  induction l with
  | nil => intro bal i h h' hs; simp [modeRowsFrom] at h
  | cons x rest ih =>
    obtain ⟨t, pname⟩ := x
    intro bal i h h' hs
    have hlen : (modeRowsFrom bal ((t, pname) :: rest)).length =
        (modeRowsFrom (modeStep bal t) rest).length + 1 := by
      simp [modeRowsFrom]
    match i with
    | 0 =>
      have h0 : 0 < (modeRowsFrom (modeStep bal t) rest).length := by omega
      have h0' : 0 < rest.length := by
        rw [hlen, modeRowsFrom_length] at h
        omega
      show modeRowRule ((modeRow bal t pname).balance) (rest.get ⟨0, h0'⟩)
        ((modeRowsFrom (modeStep bal t) rest).get ⟨0, h0⟩)
      rw [modeRow_balance]
      exact modeRowsFrom_zero_rule rest (modeStep bal t) h0 h0'
    | j + 1 =>
      have hj : j + 1 < (modeRowsFrom (modeStep bal t) rest).length := by omega
      have hj' : j < (modeRowsFrom (modeStep bal t) rest).length := by omega
      have hjs : j + 1 < rest.length := by
        simp only [List.length_cons] at hs
        omega
      exact ih (modeStep bal t) j hj hj' hjs

/-- Signed contribution of one joined transaction to the account
balance. -/
def netAmtJ (x : Txn × String) : Rat :=
  if isInflow x.1.txnType then x.1.amount else -x.1.amount

/-- Claim-side sum: total of the Sale/Receipt amounts of the filtered
set. -/
def inflowSum (l : List (Txn × String)) : Rat :=
  ((l.filter (fun x => decide (isInflow x.1.txnType))).map (fun x => x.1.amount)).sum

/-- Claim-side sum: total of the amounts of every other row of the
filtered set. -/
def outflowSum (l : List (Txn × String)) : Rat :=
  ((l.filter (fun x => decide (¬ isInflow x.1.txnType))).map (fun x => x.1.amount)).sum

lemma modeStep_eq_add_netAmtJ (bal : Rat) (t : Txn) (pname : String) :
    modeStep bal t = bal + netAmtJ (t, pname) := by
  unfold modeStep netAmtJ
  split <;> ring

/-- The last balance of the walk is the start balance plus the signed
sum of all contributions. -/
lemma modeRowsFrom_getLast (l : List (Txn × String)) :
    ∀ (bal : Rat) (h : modeRowsFrom bal l ≠ []),
      ((modeRowsFrom bal l).getLast h).balance = bal + (l.map netAmtJ).sum := by
  induction l with
  | nil => intro bal h; exact absurd rfl h
  | cons x rest ih =>
    obtain ⟨t, pname⟩ := x
    intro bal h
    cases rest with
    | nil =>
      show (modeRow bal t pname).balance = bal + ([(t, pname)].map netAmtJ).sum
      rw [modeRow_balance, modeStep_eq_add_netAmtJ bal t pname]
      simp
    | cons y rest' =>
      have hne : modeRowsFrom (modeStep bal t) (y :: rest') ≠ [] := by
        obtain ⟨u, q⟩ := y
        simp [modeRowsFrom]
      have key : ((modeRow bal t pname ::
          modeRowsFrom (modeStep bal t) (y :: rest')).getLast
            (List.cons_ne_nil _ _)).balance =
          bal + (netAmtJ (t, pname) + (List.map netAmtJ (y :: rest')).sum) := by
        rw [List.getLast_cons hne, ih (modeStep bal t) hne,
          modeStep_eq_add_netAmtJ bal t pname]
        ring
      exact key

lemma sum_netAmtJ_perm {l₁ l₂ : List (Txn × String)} (h : l₁.Perm l₂) :
    (l₁.map netAmtJ).sum = (l₂.map netAmtJ).sum :=
  (h.map netAmtJ).sum_eq

/-- The signed sum splits into inflow total minus outflow total. -/
lemma sum_netAmtJ_split (l : List (Txn × String)) :
    (l.map netAmtJ).sum = inflowSum l - outflowSum l := by
  induction l with
  | nil => simp [inflowSum, outflowSum]
  | cons x rest ih =>
    by_cases hin : isInflow x.1.txnType
    · simp [netAmtJ, inflowSum, outflowSum, hin, List.filter_cons] at ih ⊢
      rw [ih]
      ring
    · simp [netAmtJ, inflowSum, outflowSum, hin, List.filter_cons] at ih ⊢
      rw [ih]
      ring

/-- C4: in any possible account-report response, every Sale/Receipt row
has `debit = amount`, `credit = 0` and balance equal to the previous
balance plus the amount; every other row has `debit = 0`,
`credit = amount` and balance equal to the previous balance minus the
amount (the first row measured from `0`); and the final row's balance
equals the sum of all Sale/Receipt amounts minus the sum of all other
amounts over the whole filtered transaction set. -/
theorem claim_C4_mode_report_balances (db : DB) (mode : String)
    (sorted : List (Txn × String)) (out : List ModeRow)
    (hperm : (modeJoinedTxns db mode).Perm sorted)
    (_hsorted : sorted.Sorted dateLeJ)
    (hout : out = modeRowsFrom 0 sorted) :
    (∀ (h0 : 0 < out.length) (h0' : 0 < sorted.length),
      modeRowRule 0 (sorted.get ⟨0, h0'⟩) (out.get ⟨0, h0⟩)) ∧
    (∀ i (h : i + 1 < out.length) (h' : i < out.length) (hs : i + 1 < sorted.length),
      modeRowRule (out.get ⟨i, h'⟩).balance (sorted.get ⟨i + 1, hs⟩)
        (out.get ⟨i + 1, h⟩)) ∧
    (∀ hne : out ≠ [],
      (out.getLast hne).balance =
        inflowSum (modeJoinedTxns db mode) - outflowSum (modeJoinedTxns db mode)) := by
  subst hout
  refine ⟨fun h0 h0' => modeRowsFrom_zero_rule sorted 0 h0 h0',
    fun i h h' hs => modeRowsFrom_rec sorted 0 i h h' hs, ?_⟩
  intro hne
  rw [modeRowsFrom_getLast sorted 0 hne, sum_netAmtJ_perm hperm.symm,
    sum_netAmtJ_split]
  ring

/-- The concrete account-report response for the sample database and
mode `Cash`, walking the joined rows in stored (already date-sorted)
order. -/
def modeOutW : List ModeRow := modeRowsFrom 0 (modeJoinedTxns dbW "Cash")

lemma getModeReportSpec_dbW : getModeReportSpec dbW "Cash" modeOutW :=
  ⟨modeJoinedTxns dbW "Cash", List.Perm.refl _, by decide, rfl⟩

/-- C4 witness: for the sample Cash account (Sale 500, Receipt 200,
Expense 50), the final balance equals the inflow total minus the
outflow total, which evaluate to 700 and 50. -/
theorem claim_C4_witness :
    (modeOutW.getLast (by decide)).balance =
      inflowSum (modeJoinedTxns dbW "Cash") - outflowSum (modeJoinedTxns dbW "Cash") ∧
    inflowSum (modeJoinedTxns dbW "Cash") = 700 ∧
    outflowSum (modeJoinedTxns dbW "Cash") = 50 := by
  refine ⟨(claim_C4_mode_report_balances dbW "Cash" (modeJoinedTxns dbW "Cash")
    modeOutW (List.Perm.refl _) (by decide) rfl).2.2 (by decide), ?_, ?_⟩
  · have hj : modeJoinedTxns dbW "Cash" =
        [(txnW1, "Acme Corp"), (txnW2, "Acme Corp"), (txnW3, "Acme Corp")] := by decide
    rw [hj]
    simp [inflowSum, txnW1, txnW2, txnW3, isInflow]
    norm_num
  · have hj : modeJoinedTxns dbW "Cash" =
        [(txnW1, "Acme Corp"), (txnW2, "Acme Corp"), (txnW3, "Acme Corp")] := by decide
    rw [hj]
    simp [outflowSum, txnW1, txnW2, txnW3, isInflow]

/-! ## Daily-summary lemmas -/

lemma mem_insertDate {a d : Nat} {l : List Nat} :
    a ∈ insertDate d l ↔ a = d ∨ a ∈ l := by
  induction l with
  | nil => simp [insertDate]
  | cons x xs ih =>
    by_cases h : d ≤ x
    · simp [insertDate, h]
    · simp [insertDate, h, ih]
      tauto

lemma mem_sortDates {a : Nat} {l : List Nat} : a ∈ sortDates l ↔ a ∈ l := by
  induction l with
  | nil => simp [sortDates]
  | cons x xs ih => simp [sortDates, mem_insertDate, ih]

/-- Every active date lies inside the queried range. -/
lemma mem_activeDates_range (db : DB) (s e d : Nat)
    (hd : d ∈ activeDates db s e) : s ≤ d ∧ d ≤ e := by
  unfold activeDates at hd
  rw [mem_sortDates] at hd
  have hmem := List.mem_dedup.mp hd
  unfold datePool at hmem
  rcases List.mem_append.mp hmem with hmem' | hmem' <;>
    simpa using (List.mem_filter.mp hmem').2

/-- Looking a date up in the range-restricted count map agrees with the
unrestricted lookup for dates inside the range. -/
lemma find_filter_range (l : List DailyCashRow) (s e d : Nat)
    (h1 : s ≤ d) (h2 : d ≤ e) :
    (l.filter (fun r => s ≤ r.cashDate ∧ r.cashDate ≤ e)).find?
        (fun r => r.cashDate = d) =
      l.find? (fun r => r.cashDate = d) := by
  induction l with
  | nil => simp
  | cons r rest ih =>
    rw [List.filter_cons]
    by_cases hin : s ≤ r.cashDate ∧ r.cashDate ≤ e
    · rw [if_pos (by simpa using hin)]
      by_cases hrd : r.cashDate = d
      · rw [List.find?_cons_of_pos _ (by simpa using hrd),
          List.find?_cons_of_pos _ (by simpa using hrd)]
      · rw [List.find?_cons_of_neg _ (by simpa using hrd),
          List.find?_cons_of_neg _ (by simpa using hrd), ih]
    · rw [if_neg (by simpa using hin)]
      by_cases hrd : r.cashDate = d
      · exact absurd ⟨by rw [hrd]; exact h1, by rw [hrd]; exact h2⟩ hin
      · rw [List.find?_cons_of_neg _ (by simpa using hrd), ih]

lemma dcLookupRange_eq_dcLookup (db : DB) (s e d : Nat)
    (h1 : s ≤ d) (h2 : d ≤ e) :
    dcLookupRange db s e d = dcLookup db d := by
  unfold dcLookupRange dcLookup
  rw [find_filter_range db.dailyCash s e d h1 h2]

/-- Internal consistency of one emitted reconciliation row: its
aggregate fields, `cash_needed`, and the recorded-count override of
`closing_cash` / `cash_short_excess`. -/
def rowConsistent (db : DB) (s e : Nat) (r : SummaryRow) : Prop :=
  r.cashIn = daySum db r.date cashInAmt ∧
  r.cashExpense = daySum db r.date cashExpenseAmt ∧
  r.cashNeeded = r.openingCash + r.cashIn - r.cashExpense ∧
  r.cashInHand = dcLookupRange db s e r.date ∧
  (dcLookupRange db s e r.date = none →
    r.closingCash = r.cashNeeded ∧ r.cashShortExcess = 0) ∧
  (∀ v, dcLookupRange db s e r.date = some v →
    r.closingCash = v ∧ r.cashShortExcess = v - r.cashNeeded)

lemma summaryRowFor_consistent (db : DB) (s e : Nat) (opening : Rat) (d : Nat) :
    rowConsistent db s e (summaryRowFor db s e opening d) := by
  have hdate : (summaryRowFor db s e opening d).date = d := rfl
  refine ⟨rfl, rfl, rfl, rfl, ?_, ?_⟩
  · intro hnone
    rw [hdate] at hnone
    constructor <;> simp [summaryRowFor, hnone]
  · intro v hsome
    rw [hdate] at hsome
    constructor <;> simp [summaryRowFor, hsome]

/-- Every row the walk emits is internally consistent and dated from
the walked date list. -/
lemma dailySummaryAux_consistent (db : DB) (s e : Nat) :
    ∀ (dates : List Nat) (p : Option Rat) (c : Rat),
      ∀ r ∈ dailySummaryAux db s e p c dates,
        rowConsistent db s e r ∧ r.date ∈ dates := by
  intro dates
  induction dates with
  | nil => intro p c r hr; simp [dailySummaryAux] at hr
  | cons d rest ih =>
    intro p c r hr
    rcases List.mem_cons.mp hr with rfl | hr'
    · exact ⟨summaryRowFor_consistent db s e (openingOf p c) d,
        List.mem_cons_self _ _⟩
    · obtain ⟨hcons, hdate⟩ := ih (dcLookupRange db s e d)
        (openingOf p c + daySum db d cashInAmt - daySum db d cashExpenseAmt) r hr'
      exact ⟨hcons, List.mem_cons_of_mem _ hdate⟩

lemma dailySummaryAux_length (db : DB) (s e : Nat) :
    ∀ (dates : List Nat) (p : Option Rat) (c : Rat),
      (dailySummaryAux db s e p c dates).length = dates.length := by
  intro dates
  induction dates with
  | nil => intro p c; rfl
  | cons d rest ih => intro p c; simp [dailySummaryAux, ih]

/-- The first emitted row's opening balance is the carried-in state. -/
lemma dailySummaryAux_get_zero_opening (db : DB) (s e : Nat)
    (dates : List Nat) (p : Option Rat) (c : Rat)
    (h0 : 0 < (dailySummaryAux db s e p c dates).length) :
    ((dailySummaryAux db s e p c dates).get ⟨0, h0⟩).openingCash = openingOf p c := by
  cases dates with
  | nil => simp [dailySummaryAux] at h0
  | cons d rest => rfl

/-- Each later row's opening balance is the previous row's recorded
count when present, else the previous row's computed closing. -/
lemma dailySummaryAux_opening_rec (db : DB) (s e : Nat) :
    ∀ (dates : List Nat) (p : Option Rat) (c : Rat) (i : Nat)
      (h : i + 1 < (dailySummaryAux db s e p c dates).length)
      (h' : i < (dailySummaryAux db s e p c dates).length),
      ((dailySummaryAux db s e p c dates).get ⟨i + 1, h⟩).openingCash =
        openingOf ((dailySummaryAux db s e p c dates).get ⟨i, h'⟩).cashInHand
          ((dailySummaryAux db s e p c dates).get ⟨i, h'⟩).cashNeeded := by
  intro dates
  induction dates with
  | nil => intro p c i h h'; simp [dailySummaryAux] at h
  | cons d rest ih =>
    intro p c i h h'
    have hlen : (dailySummaryAux db s e p c (d :: rest)).length =
        (dailySummaryAux db s e (dcLookupRange db s e d)
          (openingOf p c + daySum db d cashInAmt - daySum db d cashExpenseAmt)
          rest).length + 1 := by
      simp [dailySummaryAux]
    match i with
    | 0 =>
      have h0 : 0 < (dailySummaryAux db s e (dcLookupRange db s e d)
          (openingOf p c + daySum db d cashInAmt - daySum db d cashExpenseAmt)
          rest).length := by omega
      exact dailySummaryAux_get_zero_opening db s e rest _ _ h0
    | j + 1 =>
      have hj : j + 1 < (dailySummaryAux db s e (dcLookupRange db s e d)
          (openingOf p c + daySum db d cashInAmt - daySum db d cashExpenseAmt)
          rest).length := by omega
      have hj' : j < (dailySummaryAux db s e (dcLookupRange db s e d)
          (openingOf p c + daySum db d cashInAmt - daySum db d cashExpenseAmt)
          rest).length := by omega
      exact ih _ _ j hj hj'

/-! ## C1: carry-forward correctness of the reconciliation walk -/

/-- C1: in the daily cash reconciliation report (whose published order
is the reversal of the ascending walk), the first active day's opening
cash is the effective opening seed computed by
`get_opening_cash_before_date`, and every later active day's opening
cash equals the previous active day's recorded `DailyCashCount` when
one exists, else the previous active day's computed closing balance
`opening_cash + cash_in − cash_expense`. -/
theorem claim_C1_carry_forward (db : DB) (s e : Nat) :
    getDailySummaryReport db s e = (dailySummaryRowsAsc db s e).reverse ∧
    (∀ h0 : 0 < (dailySummaryRowsAsc db s e).length,
      ((dailySummaryRowsAsc db s e).get ⟨0, h0⟩).openingCash =
        openingCashBeforeDate db s db.openingCashSeed) ∧
    (∀ i (h : i + 1 < (dailySummaryRowsAsc db s e).length)
      (h' : i < (dailySummaryRowsAsc db s e).length),
      (∀ v, dcLookup db ((dailySummaryRowsAsc db s e).get ⟨i, h'⟩).date = some v →
        ((dailySummaryRowsAsc db s e).get ⟨i + 1, h⟩).openingCash = v) ∧
      (dcLookup db ((dailySummaryRowsAsc db s e).get ⟨i, h'⟩).date = none →
        ((dailySummaryRowsAsc db s e).get ⟨i + 1, h⟩).openingCash =
          ((dailySummaryRowsAsc db s e).get ⟨i, h'⟩).openingCash +
            ((dailySummaryRowsAsc db s e).get ⟨i, h'⟩).cashIn -
            ((dailySummaryRowsAsc db s e).get ⟨i, h'⟩).cashExpense)) := by
  refine ⟨rfl, ?_, ?_⟩
  · intro h0
    exact dailySummaryAux_get_zero_opening db s e _ _ _ h0
  · intro i h h'
    have hrec : ((dailySummaryRowsAsc db s e).get ⟨i + 1, h⟩).openingCash =
        openingOf ((dailySummaryRowsAsc db s e).get ⟨i, h'⟩).cashInHand
          ((dailySummaryRowsAsc db s e).get ⟨i, h'⟩).cashNeeded :=
      dailySummaryAux_opening_rec db s e (activeDates db s e) none
        (openingCashBeforeDate db s db.openingCashSeed) i h h'
    have hmem : (dailySummaryRowsAsc db s e).get ⟨i, h'⟩ ∈
        dailySummaryRowsAsc db s e := List.get_mem _ _ _
    obtain ⟨hcons, hdmem⟩ := dailySummaryAux_consistent db s e _ _ _ _ hmem
    obtain ⟨hrange1, hrange2⟩ := mem_activeDates_range db s e _ hdmem
    have hbridge : dcLookupRange db s e
        ((dailySummaryRowsAsc db s e).get ⟨i, h'⟩).date =
        dcLookup db ((dailySummaryRowsAsc db s e).get ⟨i, h'⟩).date :=
      dcLookupRange_eq_dcLookup db s e _ hrange1 hrange2
    have hcih := hcons.2.2.2.1
    constructor
    · intro v hv
      rw [hrec, hcih, hbridge, hv]
      rfl
    · intro hn
      rw [hrec, hcih, hbridge, hn]
      show ((dailySummaryRowsAsc db s e).get ⟨i, h'⟩).cashNeeded = _
      rw [hcons.2.2.1]

/-- C1 witness: on the sample database over `[10, 12]` (active days 10
and 11), day 10 has no recorded count, so day 11 opens at day 10's
computed closing; and day 10 opens at the effective seed. -/
theorem claim_C1_witness :
    ((dailySummaryRowsAsc dbW 10 12).get ⟨0, by decide⟩).openingCash =
      openingCashBeforeDate dbW 10 dbW.openingCashSeed ∧
    dcLookup dbW ((dailySummaryRowsAsc dbW 10 12).get ⟨0, by decide⟩).date = none ∧
    ((dailySummaryRowsAsc dbW 10 12).get ⟨1, by decide⟩).openingCash =
      ((dailySummaryRowsAsc dbW 10 12).get ⟨0, by decide⟩).openingCash +
        ((dailySummaryRowsAsc dbW 10 12).get ⟨0, by decide⟩).cashIn -
        ((dailySummaryRowsAsc dbW 10 12).get ⟨0, by decide⟩).cashExpense := by
  have hn : dcLookup dbW ((dailySummaryRowsAsc dbW 10 12).get ⟨0, by decide⟩).date =
      none := by decide
  exact ⟨(claim_C1_carry_forward dbW 10 12).2.1 (by decide), hn,
    ((claim_C1_carry_forward dbW 10 12).2.2 0 (by decide) (by decide)).2 hn⟩

/-! ## C2: per-row closing and short/excess rule -/

/-- C2: every row of the daily cash reconciliation report satisfies
`cash_needed = opening_cash + cash_in − cash_expense`; when a
`DailyCashCount` is recorded for the row's date, `closing_cash` is the
recorded count and `cash_short_excess` is the count minus
`cash_needed`; when none is recorded, `closing_cash = cash_needed` and
`cash_short_excess = 0`. -/
theorem claim_C2_closing_short_excess (db : DB) (s e : Nat) :
    ∀ r ∈ getDailySummaryReport db s e,
      r.cashNeeded = r.openingCash + r.cashIn - r.cashExpense ∧
      r.cashInHand = dcLookup db r.date ∧
      (∀ v, dcLookup db r.date = some v →
        r.closingCash = v ∧ r.cashShortExcess = v - r.cashNeeded) ∧
      (dcLookup db r.date = none →
        r.closingCash = r.cashNeeded ∧ r.cashShortExcess = 0) := by
  intro r hr
  rw [getDailySummaryReport, List.mem_reverse] at hr
  obtain ⟨hcons, hdmem⟩ := dailySummaryAux_consistent db s e _ _ _ r hr
  obtain ⟨hrange1, hrange2⟩ := mem_activeDates_range db s e _ hdmem
  have hbridge : dcLookupRange db s e r.date = dcLookup db r.date :=
    dcLookupRange_eq_dcLookup db s e _ hrange1 hrange2
  refine ⟨hcons.2.2.1, ?_, ?_, ?_⟩
  · rw [hcons.2.2.2.1, hbridge]
  · intro v hv
    exact hcons.2.2.2.2.2 v (by rw [hbridge]; exact hv)
  · intro hn
    exact hcons.2.2.2.2.1 (by rw [hbridge]; exact hn)

/-- C2 witness: the day-11 row of the sample report (recorded count
300) has `closing_cash = 300` and `cash_short_excess = 300 −
cash_needed`; its `cash_in_hand` equals the recorded count. -/
theorem claim_C2_witness :
    dcLookup dbW ((getDailySummaryReport dbW 10 12).get ⟨0, by decide⟩).date =
      some 300 ∧
    ((getDailySummaryReport dbW 10 12).get ⟨0, by decide⟩).closingCash = 300 ∧
    ((getDailySummaryReport dbW 10 12).get ⟨0, by decide⟩).cashShortExcess =
      300 - ((getDailySummaryReport dbW 10 12).get ⟨0, by decide⟩).cashNeeded := by
  have hv : dcLookup dbW ((getDailySummaryReport dbW 10 12).get ⟨0, by decide⟩).date =
      some 300 := by decide
  have h := (claim_C2_closing_short_excess dbW 10 12
    ((getDailySummaryReport dbW 10 12).get ⟨0, by decide⟩)
    (List.get_mem _ _ _)).2.2.1 300 hv
  exact ⟨hv, h.1, h.2⟩

/-! ## C7: report cache coverage (corrected) -/

/-- Pure view of a `cache_get` probe (the returned payload, ignoring
the eviction side effect). -/
def cacheLookup (c : Cache) (now : Nat) (k : CacheKey) : Option ReportPayload :=
  (cacheGet c now k).1

/-- The cache key the claim's key scheme (tenant, report kind, date
range / selector) would assign to the payment-mode report; the code
never forms such a key because `get_mode_report` does not touch the
cache. -/
def modeReportKey (company mode : String) : CacheKey :=
  (company, "mode_report", mode, "")

/-- The empty database, for concrete counterexample states. -/
def dbEmpty : DB :=
  { users := []
    auditLogs := []
    parties := []
    transactions := []
    dailyCash := []
    openingCashSeed := 0
    nextTxnId := 1 }

/-- A stored mode-report payload that differs from what the empty
database computes. -/
def modeRowX : ModeRow := ⟨10, "B1", "Acme Corp", "Sale", 500, 0, 500⟩

/-- A state whose cache holds a fresh mode-report entry. -/
def stPlanted : AppState :=
  { db := dbEmpty
    cache := [(modeReportKey "default" "Cash", 0, .modeRep [modeRowX])]
    company := "default" }

/-- C7 counterexample: the payment-mode report is not served through
the report cache.  In a state whose cache holds a fresh entry under the
mode-report key, the endpoint still answers from the store: over the
empty database it returns `[]`, not the stored payload. -/
theorem claim_C7_counterexample :
    ¬ (∀ (st : AppState) (now : Nat) (mode : String) (out : List ModeRow)
        (st' : AppState) (rows : List ModeRow),
        modeReportOp st mode out st' →
        cacheLookup st.cache now (modeReportKey st.company mode) =
          some (.modeRep rows) →
        out = rows) := by
  intro hclaim
  have hop : modeReportOp stPlanted "Cash" [] stPlanted := by
    refine ⟨⟨[], ?_, by simp, rfl⟩, rfl⟩
    have : modeJoinedTxns stPlanted.db "Cash" = [] := rfl
    rw [this]
  have hcl : cacheLookup stPlanted.cache 0 (modeReportKey stPlanted.company "Cash") =
      some (.modeRep [modeRowX]) := rfl
  have := hclaim stPlanted 0 "Cash" [] stPlanted [modeRowX] hop hcl
  simp at this

lemma cacheGet_cacheSet (c : Cache) (now now₂ : Nat) (k : CacheKey)
    (p : ReportPayload) (h : now₂ - now ≤ reportCacheTTL) :
    cacheGet (cacheSet c now k p) now₂ k = (some p, cacheSet c now k p) := by
  have hfind : ((cacheSet c now k p) : List (CacheKey × Nat × ReportPayload)).find?
      (fun ent => ent.1 = k) = some (k, now, p) := by
    unfold cacheSet
    rw [List.find?_cons_of_pos _ (by simp)]
  have hc : ¬ now₂ - now > reportCacheTTL := by omega
  unfold cacheGet
  rw [hfind]
  simp [hc, cacheSet]

/-- C7 (amended): only the daily cash reconciliation report (and the
short-excess report, which delegates to it) is served through the
report cache.  A daily-summary call whose key holds an unexpired entry
returns the stored payload without touching the store, and after a
miss a repeated call with the same key within the TTL returns the
stored result; the short-excess endpoint is the projection of that
same cached call.  The other report endpoints — ledger, payment-mode,
transaction-type, outstanding, trial balance, profit-and-loss and
dashboard — recompute from the store on every call and never read or
write the cache.  Every write to transactions (insert, edit, delete),
to the daily-cash counts, or to the opening-cash seed clears the
entire cache. -/
theorem claim_C7_amended_cache_scope :
    (∀ (st : AppState) (now s e : Nat) (p : ReportPayload),
      (cacheGet st.cache now (dailySummaryKey st.company
          (resolveRange s e).1 (resolveRange s e).2)).1 = some p →
      (dailySummaryEndpoint st now s e).1 = p ∧
      (dailySummaryEndpoint st now s e).2.db = st.db) ∧
    (∀ (st : AppState) (now₁ now₂ s e : Nat),
      (cacheGet st.cache now₁ (dailySummaryKey st.company
          (resolveRange s e).1 (resolveRange s e).2)).1 = none →
      now₂ - now₁ ≤ reportCacheTTL →
      (dailySummaryEndpoint ((dailySummaryEndpoint st now₁ s e).2) now₂ s e).1 =
        (dailySummaryEndpoint st now₁ s e).1) ∧
    (∀ (st : AppState) (now s e : Nat),
      shortExcessEndpoint st now s e =
        (shortExcessOfPayload (dailySummaryEndpoint st now s e).1,
         (dailySummaryEndpoint st now s e).2) ∧
      ((cacheGet st.cache now (dailySummaryKey st.company
          (resolveRange s e).1 (resolveRange s e).2)).1 = none →
        (shortExcessEndpoint st now s e).1 =
          getShortExcessReport st.db (resolveRange s e).1 (resolveRange s e).2)) ∧
    (∀ (st : AppState) (mode : String) (out : List ModeRow) (st' : AppState),
      modeReportOp st mode out st' →
      getModeReportSpec st.db mode out ∧ st'.cache = st.cache ∧ st'.db = st.db) ∧
    (∀ (st : AppState) (party : String) (start? end? : Option Nat)
      (out : List LedgerRow) (st' : AppState),
      ledgerOp st party start? end? out st' →
      getLedgerSpec st.db party start? end? out ∧
        st'.cache = st.cache ∧ st'.db = st.db) ∧
    (∀ (st : AppState) (ttype : String) (out : List TypeRow) (st' : AppState),
      typeReportOp st ttype out st' →
      getTypeReportSpec st.db ttype out ∧ st'.cache = st.cache ∧ st'.db = st.db) ∧
    (∀ st : AppState, outstandingEndpoint st = (getOutstandingReport st.db, st)) ∧
    (∀ st : AppState, trialBalanceEndpoint st = (getTrialBalance st.db, st)) ∧
    (∀ st : AppState, pnlEndpoint st = (getPnlReport st.db, st)) ∧
    (∀ (st : AppState) (today : Nat) (monthYear : Nat → Nat × Nat),
      dashboardEndpoint st today monthYear =
        (getDashboardMetrics st.db today monthYear, st)) ∧
    (∀ (st : AppState) (date : Nat) (billNo party txnType mode : String)
      (amount : Rat) (pid : Nat),
      partyIdByName st.db (normalizeName party) = some pid →
      (addTransactionEndpoint st date billNo party txnType mode amount).2.cache =
        invalidateReportCache) ∧
    (∀ (st : AppState) (txnId : Nat) (upd : TxnFieldUpdate) (au : String)
      (t₀ : Txn),
      st.db.transactions.find? (fun t => t.txnId = txnId) = some t₀ →
      (editTransactionEndpoint st txnId upd au).2.cache = invalidateReportCache) ∧
    (∀ (st : AppState) (txnId : Nat) (upd : TxnFieldUpdate) (au : String),
      st.db.transactions.find? (fun t => t.txnId = txnId) = none →
      editTransactionEndpoint st txnId upd au = (.error "Transaction not found", st)) ∧
    (∀ (st : AppState) (txnId : Nat) (au : String) (t₀ : Txn),
      st.db.transactions.find? (fun t => t.txnId = txnId) = some t₀ →
      (deleteTransactionEndpoint st txnId au).2.cache = invalidateReportCache) ∧
    (∀ (st : AppState) (txnId : Nat) (au : String),
      st.db.transactions.find? (fun t => t.txnId = txnId) = none →
      deleteTransactionEndpoint st txnId au = (.error "Transaction not found", st)) ∧
    (∀ (st : AppState) (date : Nat) (v : Rat) (u : String),
      (setCashInHandEndpoint st date v u).cache = invalidateReportCache) ∧
    (∀ (st : AppState) (amount : Rat) (u : String),
      (setOpeningCashEndpoint st amount u).cache = invalidateReportCache) := by
  refine ⟨?_, ?_, ?_, ?_, ?_, ?_, fun st => rfl, fun st => rfl, fun st => rfl,
    fun st today monthYear => rfl, ?_, ?_, ?_, ?_, ?_, fun st date v u => rfl,
    fun st amount u => rfl⟩
  · intro st now s e p hhit
    have hpr : cacheGet st.cache now (dailySummaryKey st.company
        (resolveRange s e).1 (resolveRange s e).2) =
        (some p, (cacheGet st.cache now (dailySummaryKey st.company
          (resolveRange s e).1 (resolveRange s e).2)).2) := by
      rw [← hhit]
    constructor <;>
      · simp only [dailySummaryEndpoint]
        rw [hpr]
  · intro st now₁ now₂ s e hmiss httl
    have hpr : cacheGet st.cache now₁ (dailySummaryKey st.company
        (resolveRange s e).1 (resolveRange s e).2) =
        (none, (cacheGet st.cache now₁ (dailySummaryKey st.company
          (resolveRange s e).1 (resolveRange s e).2)).2) := by
      rw [← hmiss]
    have hfirst : dailySummaryEndpoint st now₁ s e =
        (ReportPayload.daily (getDailySummaryReport st.db
            (resolveRange s e).1 (resolveRange s e).2),
         { st with cache :=
            (cacheSet
              (cacheGet st.cache now₁ (dailySummaryKey st.company
                (resolveRange s e).1 (resolveRange s e).2)).2
              now₁
              (dailySummaryKey st.company (resolveRange s e).1 (resolveRange s e).2)
              (ReportPayload.daily (getDailySummaryReport st.db
                (resolveRange s e).1 (resolveRange s e).2))) }) := by
      simp only [dailySummaryEndpoint]
      rw [hpr]
    rw [hfirst]
    simp only [dailySummaryEndpoint]
    rw [cacheGet_cacheSet _ now₁ now₂ _ _ httl]
  · intro st now s e
    refine ⟨rfl, ?_⟩
    intro hmiss
    have hpr : cacheGet st.cache now (dailySummaryKey st.company
        (resolveRange s e).1 (resolveRange s e).2) =
        (none, (cacheGet st.cache now (dailySummaryKey st.company
          (resolveRange s e).1 (resolveRange s e).2)).2) := by
      rw [← hmiss]
    show shortExcessOfPayload (dailySummaryEndpoint st now s e).1 = _
    have hfst : (dailySummaryEndpoint st now s e).1 =
        ReportPayload.daily (getDailySummaryReport st.db
          (resolveRange s e).1 (resolveRange s e).2) := by
      simp only [dailySummaryEndpoint]
      rw [hpr]
    rw [hfst]
    rfl
  · exact fun st mode out st' hop => ⟨hop.1, by rw [hop.2], by rw [hop.2]⟩
  · exact fun st party start? end? out st' hop => ⟨hop.1, by rw [hop.2], by rw [hop.2]⟩
  · exact fun st ttype out st' hop => ⟨hop.1, by rw [hop.2], by rw [hop.2]⟩
  · intro st date billNo party txnType mode amount pid hpid
    simp only [addTransactionEndpoint]
    rw [hpid]
  · intro st txnId upd au t₀ hf
    simp only [editTransactionEndpoint]
    rw [hf]
    rfl
  · intro st txnId upd au hf
    simp only [editTransactionEndpoint]
    rw [hf]
  · intro st txnId au t₀ hf
    simp only [deleteTransactionEndpoint]
    rw [hf]
    rfl
  · intro st txnId au hf
    simp only [deleteTransactionEndpoint]
    rw [hf]

/-- A planted daily-summary cache entry for the witness state. -/
def dailyRowX : SummaryRow := ⟨10, 1, 2, 3, 4, 5, none, 6, 7, 8, 9⟩

/-- A state whose cache holds a fresh daily-summary entry for the
range `[10, 12]`. -/
def stDailyPlanted : AppState :=
  { db := dbW
    cache := [(("default", "daily_summary", "10", "12"), 0, .daily [dailyRowX])]
    company := "default" }

/-- An empty-cache state over the sample database. -/
def stW : AppState := { db := dbW, cache := [], company := "default" }

/-- C7 witness: the amended theorem applied to concrete calls — a hit
on the planted entry returns the stored (stale) payload, a recompute
followed by a repeat within the TTL returns the stored result, the
short-excess endpoint projects the same computation on a miss, the
uncached report operations admit their concrete store-computed
responses, and the concrete write endpoints (insert, edit, delete,
cash-count upsert) leave the cache empty. -/
theorem claim_C7_witness :
    (dailySummaryEndpoint stDailyPlanted 0 10 12).1 = .daily [dailyRowX] ∧
    (dailySummaryEndpoint ((dailySummaryEndpoint stW 0 10 12).2) 100 10 12).1 =
      (dailySummaryEndpoint stW 0 10 12).1 ∧
    (shortExcessEndpoint stW 0 10 12).1 = getShortExcessReport dbW 10 12 ∧
    getModeReportSpec dbW "Cash" modeOutW ∧
    getLedgerSpec dbW "acme_corp" none none ledgerOutW ∧
    getTypeReportSpec dbW "Sale" ((typeJoinedTxns dbW "Sale").map typeRowOf) ∧
    (addTransactionEndpoint stDailyPlanted 12 "B9" "Acme Corp" "Sale" "Cash" 10).2.cache =
      invalidateReportCache ∧
    (editTransactionEndpoint stDailyPlanted 1 (.amount 900) "admin").2.cache =
      invalidateReportCache ∧
    (deleteTransactionEndpoint stDailyPlanted 1 "admin").2.cache =
      invalidateReportCache ∧
    (setCashInHandEndpoint stDailyPlanted 12 100 "admin").cache =
      invalidateReportCache := by
  obtain ⟨hHit, hRepeat, hSE, hMode, hLedger, hType, -, -, -, -, hAdd, hEditOk, -,
    hDelOk, -, hCash, -⟩ := claim_C7_amended_cache_scope
  exact ⟨(hHit stDailyPlanted 0 10 12 (.daily [dailyRowX]) rfl).1,
    hRepeat stW 0 100 10 12 rfl (by decide),
    (hSE stW 0 10 12).2 rfl,
    (hMode stW "Cash" modeOutW stW ⟨getModeReportSpec_dbW, rfl⟩).1,
    (hLedger stW "acme_corp" none none ledgerOutW stW
      ⟨getLedgerSpec_dbW_outW, rfl⟩).1,
    (hType stW "Sale" ((typeJoinedTxns dbW "Sale").map typeRowOf) stW
      ⟨⟨typeJoinedTxns dbW "Sale", List.Perm.refl _, by decide, rfl⟩, rfl⟩).1,
    hAdd stDailyPlanted 12 "B9" "Acme Corp" "Sale" "Cash" 10 1 rfl,
    hEditOk stDailyPlanted 1 (.amount 900) "admin" txnW1 rfl,
    hDelOk stDailyPlanted 1 "admin" txnW1 rfl,
    hCash stDailyPlanted 12 100 "admin"⟩

/-! ## C10: audited actions clear the report cache -/

/-- C10: every (successful) `log_audit` call appends its audit row and
clears the entire report cache while leaving transactions, daily-cash
counts and the opening-cash seed untouched; consequently every audited
action that goes through it — login, user creation, password change,
user deletion, none of which modify those tables — invalidates all
cached reports as a side effect. -/
theorem claim_C10_audit_clears_cache :
    (∀ (st : AppState) (u a d : String),
      (logAudit st u a d).cache = invalidateReportCache ∧
      (logAudit st u a d).db.auditLogs = st.db.auditLogs ++ [⟨u, a, d, st.company⟩] ∧
      (logAudit st u a d).db.transactions = st.db.transactions ∧
      (logAudit st u a d).db.dailyCash = st.db.dailyCash ∧
      (logAudit st u a d).db.openingCashSeed = st.db.openingCashSeed) ∧
    (∀ (hashFn : String → String) (st : AppState) (un pw : String),
      ((loginEndpoint hashFn st un pw).1).isSome →
      (loginEndpoint hashFn st un pw).2.cache = invalidateReportCache ∧
      (loginEndpoint hashFn st un pw).2.db.transactions = st.db.transactions ∧
      (loginEndpoint hashFn st un pw).2.db.dailyCash = st.db.dailyCash ∧
      (loginEndpoint hashFn st un pw).2.db.openingCashSeed = st.db.openingCashSeed) ∧
    (∀ (hashFn : String → String) (st : AppState) (un pw role : String),
      (createUserEndpoint hashFn st un pw role).1 = .ok () →
      (createUserEndpoint hashFn st un pw role).2.cache = invalidateReportCache ∧
      (createUserEndpoint hashFn st un pw role).2.db.transactions = st.db.transactions ∧
      (createUserEndpoint hashFn st un pw role).2.db.dailyCash = st.db.dailyCash ∧
      (createUserEndpoint hashFn st un pw role).2.db.openingCashSeed =
        st.db.openingCashSeed) ∧
    (∀ (hashFn : String → String) (st : AppState) (un npw au : String),
      (changePasswordEndpoint hashFn st un npw au).1 = .ok () →
      (changePasswordEndpoint hashFn st un npw au).2.cache = invalidateReportCache ∧
      (changePasswordEndpoint hashFn st un npw au).2.db.transactions =
        st.db.transactions ∧
      (changePasswordEndpoint hashFn st un npw au).2.db.dailyCash = st.db.dailyCash ∧
      (changePasswordEndpoint hashFn st un npw au).2.db.openingCashSeed =
        st.db.openingCashSeed) ∧
    (∀ (st : AppState) (un : String),
      (deleteUserEndpoint st un).1 = .ok () →
      (deleteUserEndpoint st un).2.cache = invalidateReportCache ∧
      (deleteUserEndpoint st un).2.db.transactions = st.db.transactions ∧
      (deleteUserEndpoint st un).2.db.dailyCash = st.db.dailyCash ∧
      (deleteUserEndpoint st un).2.db.openingCashSeed = st.db.openingCashSeed) := by
  refine ⟨fun st u a d => ⟨rfl, rfl, rfl, rfl, rfl⟩, ?_, ?_, ?_, ?_⟩
  · intro hashFn st un pw hsome
    unfold loginEndpoint at hsome ⊢
    cases hf : st.db.users.find? (fun u =>
        u.username = un ∧ u.passwordHash = hashFn pw) with
    | some u => exact ⟨rfl, rfl, rfl, rfl⟩
    | none => rw [hf] at hsome; simp at hsome
  · intro hashFn st un pw role hok
    unfold createUserEndpoint at hok ⊢
    by_cases hex : st.db.users.any (fun u => u.username = un) = true
    · rw [if_pos hex] at hok
      simp at hok
    · rw [if_neg hex]
      exact ⟨rfl, rfl, rfl, rfl⟩
  · intro hashFn st un npw au hok
    unfold changePasswordEndpoint at hok ⊢
    by_cases hex : st.db.users.any (fun u => u.username = un) = true
    · rw [if_pos hex]
      exact ⟨rfl, rfl, rfl, rfl⟩
    · rw [if_neg hex] at hok
      simp at hok
  · intro st un hok
    unfold deleteUserEndpoint at hok ⊢
    by_cases hadm : un = "admin"
    · rw [if_pos hadm] at hok
      simp at hok
    · rw [if_neg hadm]
      exact ⟨rfl, rfl, rfl, rfl⟩

/-- C10 witness: on the sample state (non-empty cache), a concrete
audit write, a successful login of `admin`, a creation of `bob`, a
password change for `admin` and a deletion of `bob` all leave the
cache cleared with transactions, counts and seed untouched. -/
theorem claim_C10_witness :
    (logAudit stDailyPlanted "admin" "Login" "User logged in").cache =
      invalidateReportCache ∧
    (loginEndpoint (fun s => s) stDailyPlanted "admin" "hpw").2.cache =
      invalidateReportCache ∧
    (createUserEndpoint (fun s => s) stDailyPlanted "bob" "pw" "user").2.cache =
      invalidateReportCache ∧
    (changePasswordEndpoint (fun s => s) stDailyPlanted "admin" "npw" "admin").2.cache =
      invalidateReportCache ∧
    (deleteUserEndpoint stDailyPlanted "bob").2.cache = invalidateReportCache := by
  refine ⟨(claim_C10_audit_clears_cache.1 stDailyPlanted "admin" "Login"
      "User logged in").1, ?_, ?_, ?_, ?_⟩
  · exact (claim_C10_audit_clears_cache.2.1 (fun s => s) stDailyPlanted "admin" "hpw"
      (by decide)).1
  · exact (claim_C10_audit_clears_cache.2.2.1 (fun s => s) stDailyPlanted "bob" "pw"
      "user" rfl).1
  · exact (claim_C10_audit_clears_cache.2.2.2.1 (fun s => s) stDailyPlanted "admin"
      "npw" "admin" rfl).1
  · exact (claim_C10_audit_clears_cache.2.2.2.2 stDailyPlanted "bob" rfl).1

end Backend
